import Mathlib

/-! # Monomials: evaluation and masked differentiation

A shallow embedding of `src/main.cpp`.

* `exp_t` is `unsigned int`: a natural number below `2 ^ 32`; the only arithmetic the
  program performs on it is `-= 1`, embedded as `exp_dec` with the wrap-around made explicit.
* `term_t` is `float` in the source.  The embedding is generic in the coefficient type: every
  definition only asks for the operations the source applies to a coefficient (the literal
  `0.0f`, `*`, the conversion of an `unsigned int`, `pow`).  Theorems that need no law of
  arithmetic are stated for an arbitrary carrier; theorems that take coefficient arithmetic
  as exact ask for a (commutative) semiring.
* A C array `T a[N]` is a function `Fin N → T`; `a[i] = v` is `Function.update a i v`.
* `for (int i = 0; i < N; ++i) body` is `forLoop N body`, which threads the state of the loop
  through the iterations `i = 0, 1, …, N - 1` in that order.
* `toString` takes the library conversion of the coefficient, `std::to_string(float)`, as an
  argument; `to_string_float` is that conversion on coefficients with an integer value.
* `mono.differentiate` returns the final state of the output from the source and the prior
  state of the output; `mono.differentiateRef` is the same function on a store of objects,
  where the two references may name the same object.
-/

/-- Exponent type of the source, `typedef unsigned int exp_t`: naturals read modulo `2 ^ 32`. -/
abbrev exp_t : Type := Nat

/-- Number of values of an `unsigned int`. -/
def EXP_MOD : Nat := 4294967296

/-- The statement `x -= 1` on an `unsigned int`, wrapping from `0` to `2 ^ 32 - 1`. -/
def exp_dec (x : exp_t) : exp_t := (x + (EXP_MOD - 1)) % EXP_MOD

/-- The first `k` iterations of a counted loop over `0 .. N - 1`: iteration `k` runs after
the iterations `0 .. k - 1`. -/
def forLoop.go {σ : Type} (N : Nat) (body : Fin N → σ → σ) : (k : Nat) → k ≤ N → σ → σ
  | 0, _, s => s
  | k + 1, h, s => body ⟨k, h⟩ (forLoop.go N body k (Nat.le_of_succ_le h) s)

/-- The loop `for (int i = 0; i < N; ++i) body` as a state transformer. -/
def forLoop {σ : Type} (N : Nat) (body : Fin N → σ → σ) (init : σ) : σ :=
  forLoop.go N body N (Nat.le_refl N) init

/-- The class `Monomial<N>`: the protected members `coeff` and `exps[N]`. -/
@[ext]
structure Monomial (N : Nat) (term_t : Type) where
  /-- The member `term_t coeff`. -/
  coeff : term_t
  /-- The member `exp_t exps[N]`. -/
  exps : Fin N → exp_t

namespace Monomial

variable {N : Nat} {term_t : Type}

/-- The static member `null_exps[N] = {0}`: every entry is zero. -/
def null_exps (N : Nat) : Fin N → exp_t := fun _ => 0

/-- The method `nullify`: `coeff = 0.0f`, then every exponent is set to `0` in a loop. -/
def nullify [Zero term_t] (self : Monomial N term_t) : Monomial N term_t :=
  let self : Monomial N term_t := { self with coeff := 0 }
  forLoop N (fun i m => { m with exps := Function.update m.exps i 0 }) self

/-- The method `setExponents`: copies the argument array entry by entry. -/
def setExponents (self : Monomial N term_t) (exps : Fin N → exp_t) : Monomial N term_t :=
  forLoop N (fun i m => { m with exps := Function.update m.exps i (exps i) }) self

/-- The default constructor `Monomial() { nullify(); }`, run on the uninitialised
object `raw`. -/
def init [Zero term_t] (raw : Monomial N term_t) : Monomial N term_t :=
  raw.nullify

/-- The constructor `Monomial(term_t coeff) : coeff(coeff) { setExponents(null_exps); }`,
run on the uninitialised object `raw`. -/
def initCoeff (raw : Monomial N term_t) (coeff : term_t) : Monomial N term_t :=
  let self : Monomial N term_t := { raw with coeff := coeff }
  self.setExponents (null_exps N)

/-- The constructor `Monomial(term_t coeff, const exp_t exps[N])`, run on the
uninitialised object `raw`. -/
def initCoeffExps (raw : Monomial N term_t) (coeff : term_t) (exps : Fin N → exp_t) :
    Monomial N term_t :=
  let self : Monomial N term_t := { raw with coeff := coeff }
  self.setExponents exps

/-- The method `solve` with the receiver made explicit: the returned value together with
the state of the receiver after the call.  With a `float` base and an `unsigned int`
exponent, `pow(vals[i], exps[i])` is computed and returned in `double`, and
`result *= ...` multiplies in `double` and converts the product back to `float`: `W` is the
type of the value of `pow`, `HPow.hPow` is `pow` and `HMul.hMul` is the operation
`result * w` converted back to `term_t`.  With exact arithmetic `W` is `term_t` and the two
operations are the power with a natural exponent, for which a zero base with a zero
exponent gives `1`, and the product. -/
def solveRun {W : Type} [HPow term_t exp_t W] [HMul term_t W term_t] (self : Monomial N term_t)
    (vals : Fin N → term_t) : term_t × Monomial N term_t :=
  let result : term_t := self.coeff
  let result := forLoop N
    (fun i result => HMul.hMul result (HPow.hPow (vals i) (self.exps i))) result
  (result, self)

/-- The value returned by the method `solve`. -/
def solve {W : Type} [HPow term_t exp_t W] [HMul term_t W term_t] (self : Monomial N term_t)
    (vals : Fin N → term_t) : term_t :=
  (self.solveRun vals).1

end Monomial

namespace mono

variable {N : Nat} {term_t : Type}

/-- The test of the loop of `mono::differentiate` at index `i`:
`mask[i] != 0 && source.exps[i] != 0`. -/
def selected (source : Monomial N term_t) (mask : Fin N → exp_t) (i : Fin N) : Prop :=
  mask i ≠ 0 ∧ source.exps i ≠ 0

instance (source : Monomial N term_t) (mask : Fin N → exp_t) (i : Fin N) :
    Decidable (selected source mask i) :=
  inferInstanceAs (Decidable (mask i ≠ 0 ∧ source.exps i ≠ 0))

/-- One iteration of the loop of `mono::differentiate`; the state is `(deriv, isConstant)`. -/
def differentiateStep [Mul term_t] [NatCast term_t] (source : Monomial N term_t)
    (mask : Fin N → exp_t) (i : Fin N) (st : Monomial N term_t × Bool) :
    Monomial N term_t × Bool :=
  if selected source mask i then
    let deriv := st.1
    let deriv : Monomial N term_t := { deriv with coeff := deriv.coeff * (source.exps i : term_t) }
    let deriv : Monomial N term_t :=
      { deriv with exps := Function.update deriv.exps i (exp_dec (deriv.exps i)) }
    (deriv, false)
  else st

/-- The function `mono::differentiate(source, deriv, mask)`: the state of `deriv` after the
call, given its state before the call. -/
def differentiate [Mul term_t] [NatCast term_t] [Zero term_t] (source deriv : Monomial N term_t)
    (mask : Fin N → exp_t) : Monomial N term_t :=
  let deriv : Monomial N term_t := { deriv with coeff := source.coeff, exps := source.exps }
  let isConstant : Bool := true
  let st := forLoop N (differentiateStep source mask) (deriv, isConstant)
  if st.2 then st.1.nullify else st.1

end mono

namespace Monomial

variable {N : Nat} {term_t : Type}

/-- The method `Monomial::differentiate(exp, mask)`: every `Expression<N>` object of the
program is a `Monomial<N>` (`Monomial1D` is `Monomial<1>` with the inherited constructors),
so the `dynamic_cast` is the identity and the call forwards to `mono::differentiate`. -/
def differentiate [Mul term_t] [NatCast term_t] [Zero term_t] (self exp : Monomial N term_t)
    (mask : Fin N → exp_t) : Monomial N term_t :=
  let deriv := exp
  mono.differentiate self deriv mask

/-- The canonical zero: coefficient `0` and every exponent `0`. -/
def zero (N : Nat) (term_t : Type) [Zero term_t] : Monomial N term_t :=
  { coeff := 0, exps := fun _ => 0 }

/-- The zero-canonical invariant: a zero coefficient comes with all exponents zero. -/
def ZeroCanonical [Zero term_t] (m : Monomial N term_t) : Prop :=
  m.coeff = 0 → ∀ i, m.exps i = 0

/-- Every exponent is a value of `unsigned int`. -/
def ExpsInRange (m : Monomial N term_t) : Prop :=
  ∀ i, m.exps i < EXP_MOD

end Monomial

/-- The class `Monomial1D`: `Monomial<1>` with the inherited constructors. -/
abbrev Monomial1D (term_t : Type) : Type := Monomial 1 term_t

namespace Monomial

variable {N : Nat} {term_t : Type}

/-- The suffix appended by `toString` for the index `i` with exponent `e`:
`"x_" + to_string(i + 1) + "^" + to_string(exps[i])`, both numbers in decimal. -/
def factorText (i : Nat) (e : exp_t) : String :=
  "x_" ++ Nat.repr (i + 1) ++ "^" ++ Nat.repr e

/-- The method `toString`.  The library conversion `std::to_string(float)` applied to the
coefficient is the argument `to_string`. -/
def toString (to_string : term_t → String) (self : Monomial N term_t) : String :=
  let result : String := to_string self.coeff
  forLoop N (fun i result =>
    if self.exps i ≠ 0 then result ++ factorText i.val (self.exps i) else result) result

end Monomial

/-- The library conversion `std::to_string(float)` at a coefficient whose value is an
integer: the format `%f`, that is the integer followed by a point and six zeros. -/
def to_string_float (z : Int) : String :=
  Int.repr z ++ ".000000"

namespace mono

variable {N : Nat} {term_t : Type}

/-- One iteration of the loop of `mono::differentiate` on objects held in a store: `source`
and `deriv` are the references passed to the function, every read and write goes through
the store; the state is `(store, isConstant)`. -/
def differentiateRefStep {ι : Type} [DecidableEq ι] [Mul term_t] [NatCast term_t]
    (source deriv : ι) (mask : Fin N → exp_t) (i : Fin N)
    (st : (ι → Monomial N term_t) × Bool) : (ι → Monomial N term_t) × Bool :=
  if mask i ≠ 0 ∧ (st.1 source).exps i ≠ 0 then
    let store := st.1
    let store := Function.update store deriv
      { store deriv with coeff := (store deriv).coeff * ((store source).exps i : term_t) }
    let store := Function.update store deriv
      { store deriv with
        exps := Function.update (store deriv).exps i (exp_dec ((store deriv).exps i)) }
    (store, false)
  else st

/-- The function `mono::differentiate(source, deriv, mask)` on objects held in a store: the
store after the call.  The two references may name the same object. -/
def differentiateRef {ι : Type} [DecidableEq ι] [Mul term_t] [NatCast term_t] [Zero term_t]
    (store : ι → Monomial N term_t) (source deriv : ι) (mask : Fin N → exp_t) :
    ι → Monomial N term_t :=
  let store := Function.update store deriv
    { store deriv with coeff := (store source).coeff, exps := (store source).exps }
  let isConstant : Bool := true
  let st := forLoop N (differentiateRefStep source deriv mask) (store, isConstant)
  if st.2 then Function.update st.1 deriv (st.1 deriv).nullify else st.1

end mono

/-! ## Rounded arithmetic

The type `float` of the source is IEEE 754 binary32.  Its products and its conversions from
`unsigned int` are correctly rounded (to nearest, ties to even).  `Binary32` and `Binary64`
are the values of `float` and `double` that are non-negative integers below the overflow
threshold, with these rounded operations; they instantiate the generic coefficient type
`term_t` at the arithmetic the program really runs. -/

/-- Number of low-order bits that rounding to `p` significant bits drops from `n`. -/
def roundBits.shift : Nat → Nat → Nat → Nat
  | 0, _, _ => 0
  | fuel + 1, p, n => if n < 2 ^ p then 0 else roundBits.shift fuel p (n / 2) + 1

/-- Rounding of the natural number `n` to `p` significant bits, to nearest, ties to even. -/
def roundBits (p n : Nat) : Nat :=
  let k := roundBits.shift 256 p n
  let q := n / 2 ^ k
  let r := n % 2 ^ k
  if 2 * r < 2 ^ k then q * 2 ^ k
  else if 2 ^ k < 2 * r then (q + 1) * 2 ^ k
  else (q + q % 2) * 2 ^ k

/-- A `float` whose value is a non-negative integer: 24 significant bits. -/
structure Binary32 where
  /-- The value. -/
  val : Nat

/-- A `double` whose value is a non-negative integer: 53 significant bits. -/
structure Binary64 where
  /-- The value. -/
  val : Nat

/-- The literal `0.0f`. -/
instance : Zero Binary32 :=
  ⟨⟨0⟩⟩

/-- The conversion of an `unsigned int` to `float`. -/
instance : NatCast Binary32 :=
  ⟨fun n => ⟨roundBits 24 n⟩⟩

/-- The product of two `float`s. -/
instance : Mul Binary32 :=
  ⟨fun a b => ⟨roundBits 24 (a.val * b.val)⟩⟩

/-- The call `pow(v, e)` with `v` a `float` and `e` an `unsigned int`: both are converted
to `double`, and the power is rounded to `double`. -/
instance : HPow Binary32 exp_t Binary64 :=
  ⟨fun v e => ⟨roundBits 53 (v.val ^ e)⟩⟩

/-- The statement `result *= w` with `result` a `float` and `w` a `double`: the product is
taken in `double` and converted to `float`. -/
instance : HMul Binary32 Binary64 Binary32 :=
  ⟨fun r w => ⟨roundBits 24 (roundBits 53 (r.val * w.val))⟩⟩

/-! ## Loops -/

section Loops

variable {σ : Type} {N : Nat}

/-- Loop-invariant rule for the first `k` iterations of a counted loop. -/
theorem forLoop.go_invariant (body : Fin N → σ → σ) (init : σ) (P : Nat → σ → Prop)
    (h0 : P 0 init)
    (hstep : ∀ (k : Nat) (h : k < N) (s : σ), P k s → P (k + 1) (body ⟨k, h⟩ s)) :
    ∀ (k : Nat) (h : k ≤ N), P k (forLoop.go N body k h init) := by
  intro k
  induction k with
  | zero => intro _; exact h0
  | succ k ih => intro h; exact hstep k h _ (ih (Nat.le_of_succ_le h))

/-- Loop-invariant rule for a counted loop. -/
theorem forLoop_invariant (body : Fin N → σ → σ) (init : σ) (P : Nat → σ → Prop)
    (h0 : P 0 init)
    (hstep : ∀ (k : Nat) (h : k < N) (s : σ), P k s → P (k + 1) (body ⟨k, h⟩ s)) :
    P N (forLoop N body init) :=
  forLoop.go_invariant body init P h0 hstep N (Nat.le_refl N)

/-- The indices visited by the first `k + 1` iterations. -/
theorem finRange_take_succ (k : Nat) (h : k < N) :
    (List.finRange N).take (k + 1) = (List.finRange N).take k ++ [⟨k, h⟩] := by
  rw [List.take_succ, List.getElem?_eq_getElem (by simpa using h)]
  simp

/-- A counted loop is the left fold of its body over the indices in increasing order. -/
theorem forLoop_eq_foldl (body : Fin N → σ → σ) (init : σ) :
    forLoop N body init = (List.finRange N).foldl (fun s i => body i s) init := by
  have key := forLoop_invariant body init
    (fun k s => s = ((List.finRange N).take k).foldl (fun s i => body i s) init) rfl
    (by
      intro k h s hs
      rw [finRange_take_succ k h, List.foldl_append, ← hs]
      rfl)
  rw [key, List.take_of_length_le (by simp)]

end Loops

/-! ## The array-filling loops of `nullify` and `setExponents` -/

namespace Monomial

variable {N : Nat} {term_t : Type}

/-- A loop that stores `f i` at every index `i` leaves the array equal to `f` and the
coefficient as it was. -/
theorem forLoop_store (m : Monomial N term_t) (f : Fin N → exp_t) :
    forLoop N (fun i m => { m with exps := Function.update m.exps i (f i) }) m
      = { m with exps := f } := by
  have key := forLoop_invariant
    (fun i (m : Monomial N term_t) => { m with exps := Function.update m.exps i (f i) }) m
    (fun k s => s.coeff = m.coeff ∧ ∀ i : Fin N, s.exps i = if i.val < k then f i else m.exps i)
    (by simp)
    (by
      intro k h s hs
      refine ⟨hs.1, fun i => ?_⟩
      dsimp only
      by_cases hik : i = ⟨k, h⟩
      · subst hik; simp
      · have hne : i.val ≠ k := fun hv => hik (Fin.ext hv)
        rw [Function.update_noteq hik, hs.2 i]
        by_cases hlt : i.val < k
        · simp [hlt, Nat.lt_succ_of_lt hlt]
        · have : ¬ i.val < k + 1 := by omega
          simp [hlt, this])
  ext i
  · exact key.1
  · simpa using key.2 i

theorem nullify_eq [Zero term_t] (m : Monomial N term_t) : m.nullify = zero N term_t := by
  unfold nullify
  simp only [forLoop_store]
  rfl

theorem setExponents_eq (m : Monomial N term_t) (exps : Fin N → exp_t) :
    m.setExponents exps = { coeff := m.coeff, exps := exps } := by
  unfold setExponents
  rw [forLoop_store]

end Monomial

/-! ## The loop of `mono::differentiate` -/

namespace mono

variable {N : Nat} {term_t : Type}

/-- Away from zero, and on values of `unsigned int`, `-= 1` is the predecessor. -/
theorem exp_dec_eq (x : Nat) (h0 : x ≠ 0) (hx : x < EXP_MOD) : exp_dec x = x - 1 := by
  have hx2 : x < 4294967296 := hx
  show (x + (4294967296 - 1)) % 4294967296 = x - 1
  omega

/-- State of the loop of `mono::differentiate` after all `N` iterations, started on a copy
`d` of the source: the coefficient has been multiplied by the exponents of the selected
indices in increasing order, exactly the selected entries were decremented, and the flag
is still set iff no index was selected. -/
theorem differentiate_loop [Mul term_t] [NatCast term_t] (source d : Monomial N term_t)
    (mask : Fin N → exp_t) (hd : d.exps = source.exps) :
    (forLoop N (differentiateStep source mask) (d, true)).1.coeff
        = ((List.finRange N).filter (fun i => decide (selected source mask i))).foldl
            (fun a i => a * (source.exps i : term_t)) d.coeff
      ∧ (∀ i, (forLoop N (differentiateStep source mask) (d, true)).1.exps i
          = if selected source mask i then exp_dec (source.exps i) else source.exps i)
      ∧ ((forLoop N (differentiateStep source mask) (d, true)).2 = true
          ↔ ∀ i, ¬ selected source mask i) := by
  have key := forLoop_invariant (differentiateStep source mask) (d, true)
    (fun k st =>
      st.1.coeff = (((List.finRange N).take k).filter
          (fun i => decide (selected source mask i))).foldl
            (fun a i => a * (source.exps i : term_t)) d.coeff
      ∧ (∀ i : Fin N, st.1.exps i
          = if i.val < k ∧ selected source mask i then exp_dec (source.exps i)
            else source.exps i)
      ∧ (st.2 = true ↔ ∀ i : Fin N, i.val < k → ¬ selected source mask i))
    (by simp [hd])
    (by
      intro k h st hst
      obtain ⟨hc, he, hf⟩ := hst
      rw [finRange_take_succ k h, List.filter_append, List.foldl_append]
      by_cases hsel : selected source mask ⟨k, h⟩
      · simp only [differentiateStep, hsel, if_true]
        refine ⟨?_, fun i => ?_, ?_⟩
        · simp [hsel, hc]
        · by_cases hik : i = ⟨k, h⟩
          · subst hik
            simp [hsel, he]
          · have hne : i.val ≠ k := fun hv => hik (Fin.ext hv)
            rw [Function.update_noteq hik, he i]
            have hiff : (i.val < k + 1) ↔ (i.val < k) := by omega
            simp only [hiff]
        · constructor
          · intro hfalse
            exact absurd hfalse (by simp)
          · intro hall
            exact absurd hsel (hall ⟨k, h⟩ (Nat.lt_succ_self k))
      · simp only [differentiateStep, hsel, if_false]
        refine ⟨?_, fun i => ?_, ?_⟩
        · simp [hsel, hc]
        · rw [he i]
          by_cases hik : i = ⟨k, h⟩
          · subst hik
            simp [hsel]
          · have hne : i.val ≠ k := fun hv => hik (Fin.ext hv)
            have hiff : (i.val < k + 1) ↔ (i.val < k) := by omega
            simp only [hiff]
        · rw [hf]
          constructor
          · intro hall i hi
            by_cases hik : i = ⟨k, h⟩
            · subst hik
              exact hsel
            · have hne : i.val ≠ k := fun hv => hik (Fin.ext hv)
              exact hall i (by omega)
          · intro hall i hi
            exact hall i (Nat.lt_succ_of_lt hi))
  obtain ⟨hc, he, hf⟩ := key
  refine ⟨?_, fun i => ?_, ?_⟩
  · rw [hc]
    rw [List.take_of_length_le (by simp)]
  · rw [he i]
    simp [i.isLt]
  · rw [hf]
    constructor
    · intro hall i
      exact hall i i.isLt
    · intro hall i _
      exact hall i

end mono

/-! ## Differentiation: the contract -/

namespace mono

variable {N : Nat} {term_t : Type}

/-- The selected indices in increasing order are the selected indices in loop order. -/
theorem sort_filter_univ (p : Fin N → Prop) [DecidablePred p] :
    (Finset.univ.filter p).sort (· ≤ ·) = (List.finRange N).filter (fun i => decide (p i)) := by
  apply List.eq_of_perm_of_sorted (r := (· ≤ ·))
  · apply (List.perm_ext_iff_of_nodup (Finset.sort_nodup _ _)
      ((List.nodup_finRange N).filter _)).2
    intro a
    simp [List.mem_finRange]
  · exact Finset.sort_sorted _ _
  · exact (List.pairwise_le_finRange N).filter _

/-- Result of `mono::differentiate` when some index is selected. -/
theorem differentiate_of_selected [Mul term_t] [NatCast term_t] [Zero term_t]
    (source deriv : Monomial N term_t) (mask : Fin N → exp_t)
    (hsel : ∃ i, selected source mask i) :
    differentiate source deriv mask =
      { coeff := ((List.finRange N).filter (fun i => decide (selected source mask i))).foldl
            (fun a i => a * (source.exps i : term_t)) source.coeff
        exps := fun i =>
          if selected source mask i then exp_dec (source.exps i) else source.exps i } := by
  obtain ⟨hc, he, hf⟩ := differentiate_loop source
    ({ deriv with coeff := source.coeff, exps := source.exps } : Monomial N term_t) mask rfl
  have hflag : (forLoop N (differentiateStep source mask)
      (({ deriv with coeff := source.coeff, exps := source.exps } : Monomial N term_t),
        true)).2 = false := by
    rw [← Bool.not_eq_true, hf]
    push_neg
    exact hsel
  unfold differentiate
  simp only [hflag]
  ext i
  · exact hc
  · exact he i

/-- Result of `mono::differentiate` when no index is selected. -/
theorem differentiate_of_not_selected [Mul term_t] [NatCast term_t] [Zero term_t]
    (source deriv : Monomial N term_t) (mask : Fin N → exp_t)
    (hsel : ∀ i, ¬ selected source mask i) :
    differentiate source deriv mask = Monomial.zero N term_t := by
  obtain ⟨-, -, hf⟩ := differentiate_loop source
    ({ deriv with coeff := source.coeff, exps := source.exps } : Monomial N term_t) mask rfl
  have hflag := hf.2 hsel
  unfold differentiate
  simp only [hflag, if_true]
  exact Monomial.nullify_eq _

/-- C1: let `D` be the set of indices `i` with `mask[i] != 0` and `e[i] != 0`.  If `D` is
non-empty, `mono::differentiate` leaves in the output the coefficient `c` multiplied by
every `e[i]` for `i` in `D` (taken in increasing order of `i`, so the statement needs no law
of coefficient arithmetic) and the exponent vector `e` with exactly the entries in `D`
decreased by one.  If `D` is empty the output is the canonical zero.  The prior contents of
the output are arbitrary. -/
theorem differentiate_spec [Mul term_t] [NatCast term_t] [Zero term_t]
    (c : term_t) (e : Fin N → exp_t) (deriv : Monomial N term_t) (mask : Fin N → exp_t)
    (he : ∀ i, e i < EXP_MOD) :
    let D : Finset (Fin N) := Finset.univ.filter (fun i => mask i ≠ 0 ∧ e i ≠ 0)
    (D.Nonempty →
        (differentiate ⟨c, e⟩ deriv mask).coeff
            = (D.sort (· ≤ ·)).foldl (fun a i => a * (e i : term_t)) c
          ∧ ∀ i, (differentiate ⟨c, e⟩ deriv mask).exps i = if i ∈ D then e i - 1 else e i)
      ∧ (D = ∅ → differentiate ⟨c, e⟩ deriv mask = Monomial.zero N term_t) := by
  intro D
  constructor
  · intro hD
    obtain ⟨j, hj⟩ := hD
    have hjsel : selected (⟨c, e⟩ : Monomial N term_t) mask j := by
      simpa [D] using hj
    rw [differentiate_of_selected _ _ _ ⟨j, hjsel⟩]
    refine ⟨?_, fun i => ?_⟩
    · show _ = ((Finset.univ.filter (fun i => mask i ≠ 0 ∧ e i ≠ 0)).sort (· ≤ ·)).foldl _ c
      rw [sort_filter_univ]
      rfl
    · show (if mask i ≠ 0 ∧ e i ≠ 0 then exp_dec (e i) else e i) = _
      by_cases hi : mask i ≠ 0 ∧ e i ≠ 0
      · have hmem : i ∈ D := by simpa [D] using hi
        rw [if_pos hi, if_pos hmem, exp_dec_eq (e i) hi.2 (he i)]
      · have hmem : i ∉ D := by simpa [D] using hi
        rw [if_neg hi, if_neg hmem]
  · intro hD
    apply differentiate_of_not_selected
    intro i hi
    have hmem : i ∈ D := by simpa [D] using hi
    rw [hD] at hmem
    exact absurd hmem (Finset.not_mem_empty i)

end mono

/-! ## Evaluation -/

namespace Monomial

variable {N : Nat} {term_t : Type}

/-- The loop of `solve` multiplies the coefficient by every factor `vals[i] ^ exps[i]`. -/
theorem solve_eq_prod [CommMonoid term_t] (m : Monomial N term_t) (vals : Fin N → term_t) :
    m.solve vals = m.coeff * ∏ i, vals i ^ m.exps i := by
  have key := forLoop_invariant (fun i (result : term_t) => result * vals i ^ m.exps i) m.coeff
    (fun k r => r = m.coeff * (((List.finRange N).take k).map (fun i => vals i ^ m.exps i)).prod)
    (by simp)
    (by
      intro k h s hs
      rw [finRange_take_succ k h, hs]
      simp [mul_assoc])
  show forLoop N (fun i (result : term_t) => result * vals i ^ m.exps i) m.coeff = _
  rw [key, List.take_of_length_le (by simp), Fin.prod_univ_def]

/-- The code's arithmetic at `1 * x²` and the point `4097`: the square `16785409` is exact
in `double` and the product is rounded to `float`. -/
theorem solve_binary32 :
    (solve (⟨⟨1⟩, ![2]⟩ : Monomial 1 Binary32) ![⟨4097⟩]).val = 16785408
      ∧ (solve (⟨⟨3⟩, ![2]⟩ : Monomial 1 Binary32) ![⟨4097⟩]).val = 50356228 := by
  decide

end Monomial

/-! ## Differentiation followed by evaluation, exact coefficient arithmetic -/

namespace mono

variable {N : Nat} {term_t : Type}

/-- Multiplying an accumulator by a list of factors, one after the other. -/
theorem foldl_mul_eq [CommMonoid term_t] (f : Fin N → term_t) (l : List (Fin N)) (c : term_t) :
    l.foldl (fun a i => a * f i) c = c * (l.map f).prod := by
  induction l generalizing c with
  | nil => simp
  | cons x xs ih => simp [ih, mul_assoc]

/-- The product over the selected indices in loop order is the product over the set. -/
theorem prod_filter_finRange [CommMonoid term_t] (f : Fin N → term_t) (p : Fin N → Prop)
    [DecidablePred p] :
    (((List.finRange N).filter (fun i => decide (p i))).map f).prod
      = ∏ i in Finset.univ.filter p, f i := by
  rw [← sort_filter_univ p, Finset.prod, ← Multiset.prod_coe, ← Multiset.map_coe,
    Finset.sort_eq]

/-- With exact arithmetic the coefficient after `mono::differentiate` is `c` times the
product of the selected exponents. -/
theorem differentiate_coeff_prod [CommSemiring term_t] (source deriv : Monomial N term_t)
    (mask : Fin N → exp_t) (hsel : ∃ i, selected source mask i) :
    (differentiate source deriv mask).coeff
      = source.coeff * ∏ i in Finset.univ.filter (fun i => selected source mask i),
          (source.exps i : term_t) := by
  rw [differentiate_of_selected source deriv mask hsel]
  show List.foldl _ _ _ = _
  rw [foldl_mul_eq (fun i => (source.exps i : term_t)), prod_filter_finRange]

end mono

/-! ## Formal partial derivatives of a monomial -/

section Formal

variable {N : Nat} {R : Type}

/-- Differentiating the polynomial `a * ∏ x_j ^ s j` once with respect to every variable of
a duplicate-free list lowers those exponents by one and multiplies the coefficient by the
exponents that were lowered. -/
theorem foldr_pderiv_monomial [CommSemiring R] (s : Fin N → Nat) (a : R)
    (l : List (Fin N)) (hl : l.Nodup) :
    l.foldr (fun i p => MvPolynomial.pderiv i p)
        (MvPolynomial.monomial (Finsupp.equivFunOnFinite.symm s) a)
      = MvPolynomial.monomial
          (Finsupp.equivFunOnFinite.symm (fun j => s j - if j ∈ l then 1 else 0))
          (a * (l.map (fun i => (s i : R))).prod) := by
  induction l with
  | nil => simp
  | cons x xs ih =>
    have hx : x ∉ xs := (List.nodup_cons.1 hl).1
    rw [List.foldr_cons, ih (List.nodup_cons.1 hl).2, MvPolynomial.pderiv_monomial]
    have h1 : (Finsupp.equivFunOnFinite.symm (fun j => s j - if j ∈ xs then 1 else 0)
          - Finsupp.single x 1 : Fin N →₀ ℕ)
        = Finsupp.equivFunOnFinite.symm (fun j => s j - if j ∈ x :: xs then 1 else 0) := by
      ext j
      by_cases hj : j = x
      · subst hj
        simp [hx]
      · by_cases hjx : j ∈ xs
        · simp [hj, hjx, Finsupp.single_apply, Ne.symm hj]
        · simp [hj, hjx, Finsupp.single_apply, Ne.symm hj]
    rw [h1]
    congr 1
    simp [hx]
    ring

/-- Value of the polynomial `a * ∏ x_j ^ s j` at the point `v`. -/
theorem eval_monomial_fun [CommSemiring R] (s : Fin N → Nat) (a : R) (v : Fin N → R) :
    MvPolynomial.eval v (MvPolynomial.monomial (Finsupp.equivFunOnFinite.symm s) a)
      = a * ∏ i, v i ^ s i := by
  rw [MvPolynomial.eval_monomial, Finsupp.prod_fintype]
  · simp
  · intro i; simp

end Formal

namespace mono

variable {N : Nat} {term_t : Type}

/-- C2: with exact coefficient arithmetic, when the mask selects at least one index and
every masked index has a non-zero exponent, `solve` at `v` of the result of
`mono::differentiate` equals `c * ∏_{i masked} e[i] * ∏_i v[i] ^ (e[i] - [i masked])`, and
this is the value at `v` of the mixed partial derivative of `c * ∏ x_i ^ e_i` with respect
to all masked variables. -/
theorem solve_differentiate [CommSemiring term_t] (c : term_t) (e : Fin N → exp_t)
    (deriv : Monomial N term_t) (mask : Fin N → exp_t) (v : Fin N → term_t)
    (he : ∀ i, e i < EXP_MOD) (hmask : ∃ i, mask i ≠ 0) (hexp : ∀ i, mask i ≠ 0 → e i ≠ 0) :
    (differentiate ⟨c, e⟩ deriv mask).solve v
        = c * (∏ i in Finset.univ.filter (fun i => mask i ≠ 0), (e i : term_t))
            * ∏ i, v i ^ (e i - if mask i ≠ 0 then 1 else 0)
      ∧ (differentiate ⟨c, e⟩ deriv mask).solve v
        = MvPolynomial.eval v
            (((List.finRange N).filter (fun i => decide (mask i ≠ 0))).foldr
              (fun i p => MvPolynomial.pderiv i p)
              (MvPolynomial.monomial (Finsupp.equivFunOnFinite.symm e) c)) := by
  have hiff : ∀ i, selected (⟨c, e⟩ : Monomial N term_t) mask i ↔ mask i ≠ 0 :=
    fun i => ⟨fun h => h.1, fun h => ⟨h, hexp i h⟩⟩
  have hsel : ∃ i, selected (⟨c, e⟩ : Monomial N term_t) mask i := by
    obtain ⟨i, hi⟩ := hmask
    exact ⟨i, (hiff i).2 hi⟩
  have hfilter : (Finset.univ.filter (fun i => selected (⟨c, e⟩ : Monomial N term_t) mask i))
      = Finset.univ.filter (fun i => mask i ≠ 0) := by
    ext i
    simp [hiff i]
  have hexps : ∀ i, (differentiate ⟨c, e⟩ deriv mask).exps i
      = e i - if mask i ≠ 0 then 1 else 0 := by
    intro i
    rw [differentiate_of_selected _ _ _ hsel]
    show (if selected (⟨c, e⟩ : Monomial N term_t) mask i then exp_dec (e i) else e i) = _
    by_cases hi : mask i ≠ 0
    · rw [if_pos ((hiff i).2 hi), if_pos hi, exp_dec_eq (e i) (hexp i hi) (he i)]
    · rw [if_neg (fun h => hi ((hiff i).1 h)), if_neg hi]
      rfl
  have hfirst : (differentiate ⟨c, e⟩ deriv mask).solve v
      = c * (∏ i in Finset.univ.filter (fun i => mask i ≠ 0), (e i : term_t))
          * ∏ i, v i ^ (e i - if mask i ≠ 0 then 1 else 0) := by
    rw [Monomial.solve_eq_prod, differentiate_coeff_prod _ _ _ hsel, hfilter]
    simp only [hexps]
  refine ⟨hfirst, ?_⟩
  rw [hfirst, foldr_pderiv_monomial e c _ ((List.nodup_finRange N).filter _),
    eval_monomial_fun, prod_filter_finRange (fun i => (e i : term_t)) (fun i => mask i ≠ 0)]
  simp [List.mem_finRange]

end mono

/-! ## One variable -/

namespace mono

variable {term_t : Type}

/-- One differentiation in one variable with the mask `[1]`. -/
theorem differentiate_one [Mul term_t] [NatCast term_t] [Zero term_t] (c : term_t) (e : exp_t)
    (deriv : Monomial1D term_t) :
    differentiate (⟨c, ![e]⟩ : Monomial1D term_t) deriv ![1]
      = if e = 0 then Monomial.zero 1 term_t else ⟨c * (e : term_t), ![exp_dec e]⟩ := by
  by_cases h0 : e = 0
  · rw [if_pos h0]
    apply differentiate_of_not_selected
    intro i hi
    apply hi.2
    have hi0 : i = 0 := Subsingleton.elim _ _
    subst hi0
    exact h0
  · rw [if_neg h0]
    have hsel : selected (⟨c, ![e]⟩ : Monomial1D term_t) ![1] 0 :=
      ⟨by decide, h0⟩
    have hrange : List.finRange 1 = [0] := by decide
    rw [differentiate_of_selected _ _ _ ⟨0, hsel⟩, hrange]
    ext i
    · simp [hsel]
    · have hi0 : i = 0 := Subsingleton.elim _ _
      subst hi0
      simp [hsel]

end mono


namespace Monomial

variable {N : Nat} {term_t : Type}

/-- The three-argument constructor stores its arguments. -/
theorem initCoeffExps_eq (raw : Monomial N term_t) (c : term_t) (e : Fin N → exp_t) :
    initCoeffExps raw c e = ⟨c, e⟩ := by
  unfold initCoeffExps
  exact setExponents_eq _ _

/-- The coefficient-only constructor stores the coefficient with all exponents zero. -/
theorem initCoeff_eq (raw : Monomial N term_t) (c : term_t) :
    initCoeff raw c = ⟨c, fun _ => 0⟩ := by
  unfold initCoeff
  exact setExponents_eq _ _

/-- The default constructor builds the canonical zero. -/
theorem init_eq [Zero term_t] (raw : Monomial N term_t) : init raw = zero N term_t :=
  nullify_eq raw

/-- C3, amended: for `N = 1`, every coefficient `c`, every exponent `e` (zero included) and
every point `x`: with coefficient arithmetic taken as exact (real coefficient and point),
`solve` at `x` of the result of differentiating `c * x ^ e` with mask `[1]` is the
derivative of `y ↦ c * y ^ e` at `x`, that is `c * e * x ^ (e - 1)` when `e ≥ 1` and `0`
when `e = 0`; in the arithmetic of the code the returned value is `c * e` multiplied by
`x ^ (e - 1)`, each operation being that of the coefficient type, when `e ≥ 1`, and `0`
multiplied by `x ^ 0` when `e = 0`. -/
theorem derivative_1D {α W : Type} [Mul α] [NatCast α] [Zero α] [HPow α exp_t W] [HMul α W α]
    (raw target : Monomial1D ℝ) (c x : ℝ) (raw₀ target₀ : Monomial1D α) (c₀ x₀ : α)
    (e : exp_t) (he : e < EXP_MOD) :
    ((initCoeffExps raw c ![e]).differentiate target ![1]).solve ![x]
        = deriv (fun y : ℝ => c * y ^ e) x
      ∧ deriv (fun y : ℝ => c * y ^ e) x = (if e = 0 then 0 else c * e * x ^ (e - 1))
      ∧ (e ≠ 0 →
          ((initCoeffExps raw₀ c₀ ![e]).differentiate target₀ ![1]).solve ![x₀]
            = HMul.hMul (c₀ * (e : α)) (HPow.hPow x₀ (e - 1)))
      ∧ (e = 0 →
          ((initCoeffExps raw₀ c₀ ![e]).differentiate target₀ ![1]).solve ![x₀]
            = HMul.hMul (0 : α) (HPow.hPow x₀ (0 : exp_t))) := by
  have hderiv : deriv (fun y : ℝ => c * y ^ e) x = if e = 0 then 0 else c * e * x ^ (e - 1) := by
    by_cases h0 : e = 0
    · subst h0
      simp
    · rw [if_neg h0]
      simp [mul_assoc]
  refine ⟨?_, hderiv, ?_, ?_⟩
  · rw [hderiv, initCoeffExps_eq]
    show (mono.differentiate ⟨c, ![e]⟩ target ![1]).solve ![x] = _
    by_cases h0 : e = 0
    · subst h0
      rw [mono.differentiate_of_not_selected]
      · simp [solve_eq_prod, zero]
      · intro i hi
        exact hi.2 (by simp)
    · have hsel : mono.selected (⟨c, ![e]⟩ : Monomial 1 ℝ) ![1] 0 :=
        ⟨by simp, by simpa using h0⟩
      rw [mono.differentiate_of_selected _ _ _ ⟨0, hsel⟩, solve_eq_prod, if_neg h0]
      have hfil : (List.finRange 1).filter
          (fun i => decide (mono.selected (⟨c, ![e]⟩ : Monomial 1 ℝ) ![1] i)) = [0] := by
        have : List.finRange 1 = [0] := by decide
        rw [this]
        simp [hsel]
      rw [hfil]
      simp [hsel, mono.exp_dec_eq e h0 he]
  · intro h0
    rw [initCoeffExps_eq]
    show (mono.differentiate ⟨c₀, ![e]⟩ target₀ ![1]).solve ![x₀] = _
    rw [mono.differentiate_one, if_neg h0, mono.exp_dec_eq e h0 he]
    rfl
  · intro h0
    rw [initCoeffExps_eq]
    show (mono.differentiate ⟨c₀, ![e]⟩ target₀ ![1]).solve ![x₀] = _
    rw [mono.differentiate_one, if_pos h0]
    rfl

/-- C3, counterexample: for the `float` coefficient `16777215`, the exponent `3` and the
point `1`, the product `16777215 * 3` is rounded to `50331644`, which `solve` returns; the
derivative of `y ↦ 16777215 * y ^ 3` at `1` is `50331645`. -/
theorem derivative_counterexample :
    (((initCoeffExps (⟨0, ![0]⟩ : Monomial1D Binary32) ⟨16777215⟩ ![3]).differentiate
          (init ⟨0, ![0]⟩) ![1]).solve ![⟨1⟩]).val = 50331644
      ∧ deriv (fun y : ℝ => (16777215 : ℝ) * y ^ 3) 1 = 50331645
      ∧ (((((initCoeffExps (⟨0, ![0]⟩ : Monomial1D Binary32) ⟨16777215⟩ ![3]).differentiate
            (init ⟨0, ![0]⟩) ![1]).solve ![⟨1⟩]).val : ℕ) : ℝ)
          ≠ deriv (fun y : ℝ => (16777215 : ℝ) * y ^ 3) 1 := by
  have hcode : (((initCoeffExps (⟨0, ![0]⟩ : Monomial1D Binary32) ⟨16777215⟩ ![3]).differentiate
      (init ⟨0, ![0]⟩) ![1]).solve ![⟨1⟩]).val = 50331644 := by
    decide
  have hderiv : deriv (fun y : ℝ => (16777215 : ℝ) * y ^ 3) 1 = 50331645 := by
    simp
    norm_num
  refine ⟨hcode, hderiv, ?_⟩
  rw [hcode, hderiv]
  norm_num

end Monomial

/-! ## Witnesses for the contract of differentiation and evaluation -/

/-- Instance of C1 at `5 * x₁² * x₂³` with mask `{1, 1}` over the integers. -/
theorem mono.differentiate_spec_witness :
    (∀ i, (![2, 3] : Fin 2 → exp_t) i < EXP_MOD)
      ∧ (let D : Finset (Fin 2) := Finset.univ.filter
            (fun i => (![1, 1] : Fin 2 → exp_t) i ≠ 0 ∧ (![2, 3] : Fin 2 → exp_t) i ≠ 0);
          (D.Nonempty →
            (mono.differentiate (⟨5, ![2, 3]⟩ : Monomial 2 Int) ⟨0, ![7, 7]⟩ ![1, 1]).coeff
                = (D.sort (· ≤ ·)).foldl
                    (fun a i => a * (((![2, 3] : Fin 2 → exp_t) i : Nat) : Int)) 5
              ∧ ∀ i, (mono.differentiate (⟨5, ![2, 3]⟩ : Monomial 2 Int) ⟨0, ![7, 7]⟩
                    ![1, 1]).exps i
                  = if i ∈ D then (![2, 3] : Fin 2 → exp_t) i - 1
                    else (![2, 3] : Fin 2 → exp_t) i)
          ∧ (D = ∅ →
              mono.differentiate (⟨5, ![2, 3]⟩ : Monomial 2 Int) ⟨0, ![7, 7]⟩ ![1, 1]
                = Monomial.zero 2 Int)) :=
  ⟨by decide, mono.differentiate_spec (5 : Int) ![2, 3] ⟨0, ![7, 7]⟩ ![1, 1] (by decide)⟩

/-- Instance of C2 at `5 * x₁² * x₂³` with mask `{1, 1}` and the point `(2, 1)`. -/
theorem mono.solve_differentiate_witness :
    (∀ i, (![2, 3] : Fin 2 → exp_t) i < EXP_MOD)
      ∧ (∃ i, (![1, 1] : Fin 2 → exp_t) i ≠ 0)
      ∧ (∀ i, (![1, 1] : Fin 2 → exp_t) i ≠ 0 → (![2, 3] : Fin 2 → exp_t) i ≠ 0)
      ∧ ((mono.differentiate (⟨5, ![2, 3]⟩ : Monomial 2 Int) ⟨0, ![7, 7]⟩ ![1, 1]).solve ![2, 1]
          = 5 * (∏ i in Finset.univ.filter (fun i => (![1, 1] : Fin 2 → exp_t) i ≠ 0),
                (((![2, 3] : Fin 2 → exp_t) i : Nat) : Int))
              * ∏ i, (![2, 1] : Fin 2 → Int) i
                  ^ ((![2, 3] : Fin 2 → exp_t) i
                      - if (![1, 1] : Fin 2 → exp_t) i ≠ 0 then 1 else 0)
        ∧ (mono.differentiate (⟨5, ![2, 3]⟩ : Monomial 2 Int) ⟨0, ![7, 7]⟩ ![1, 1]).solve
              ![2, 1]
          = MvPolynomial.eval ![2, 1]
              (((List.finRange 2).filter
                  (fun i => decide ((![1, 1] : Fin 2 → exp_t) i ≠ 0))).foldr
                (fun i p => MvPolynomial.pderiv i p)
                (MvPolynomial.monomial (Finsupp.equivFunOnFinite.symm ![2, 3]) (5 : Int)))) :=
  ⟨by decide, ⟨0, by decide⟩, by decide,
    mono.solve_differentiate (5 : Int) ![2, 3] ⟨0, ![7, 7]⟩ ![1, 1] ![2, 1] (by decide)
      ⟨0, by decide⟩ (by decide)⟩

/-- Instance of the amended C3: `3 * x²` at the point `5` over the reals, and the `float`
coefficient `16777215` with exponent `3` at the point `1`. -/
theorem Monomial.derivative_1D_witness :
    (3 : exp_t) < EXP_MOD
      ∧ (((Monomial.initCoeffExps (⟨0, ![9]⟩ : Monomial1D ℝ) 3 ![3]).differentiate
              (⟨0, ![0]⟩ : Monomial1D ℝ) ![1]).solve ![5]
            = deriv (fun y : ℝ => 3 * y ^ 3) 5
          ∧ deriv (fun y : ℝ => 3 * y ^ 3) 5
            = (if (3 : exp_t) = 0 then 0 else 3 * ((3 : exp_t) : ℝ) * 5 ^ (3 - 1))
          ∧ ((3 : exp_t) ≠ 0 →
              ((Monomial.initCoeffExps (⟨0, ![9]⟩ : Monomial1D Binary32) ⟨16777215⟩
                  ![3]).differentiate (⟨0, ![0]⟩ : Monomial1D Binary32) ![1]).solve ![⟨1⟩]
                = HMul.hMul ((⟨16777215⟩ : Binary32) * ((3 : exp_t) : Binary32))
                    (HPow.hPow (⟨1⟩ : Binary32) ((3 : exp_t) - 1)))
          ∧ ((3 : exp_t) = 0 →
              ((Monomial.initCoeffExps (⟨0, ![9]⟩ : Monomial1D Binary32) ⟨16777215⟩
                  ![3]).differentiate (⟨0, ![0]⟩ : Monomial1D Binary32) ![1]).solve ![⟨1⟩]
                = HMul.hMul (0 : Binary32) (HPow.hPow (⟨1⟩ : Binary32) (0 : exp_t)))) :=
  ⟨by decide,
    Monomial.derivative_1D (⟨0, ![9]⟩ : Monomial1D ℝ) ⟨0, ![0]⟩ 3 5
      (⟨0, ![9]⟩ : Monomial1D Binary32) ⟨0, ![0]⟩ ⟨16777215⟩ ⟨1⟩ 3 (by decide)⟩

/-! ## The zero-canonical invariant -/

namespace Monomial

variable {N : Nat} {term_t : Type}

/-- The canonical zero satisfies the invariant. -/
theorem zeroCanonical_zero [Zero term_t] : (zero N term_t).ZeroCanonical :=
  fun _ _ => rfl

/-- Multiplying a non-zero coefficient by non-zero exponents keeps it non-zero. -/
theorem foldl_mul_ne_zero [Semiring term_t] [NoZeroDivisors term_t] [CharZero term_t]
    (e : Fin N → exp_t) (l : List (Fin N)) (hl : ∀ i ∈ l, e i ≠ 0) (c : term_t) (hc : c ≠ 0) :
    l.foldl (fun a i => a * (e i : term_t)) c ≠ 0 := by
  induction l generalizing c with
  | nil => simpa using hc
  | cons x xs ih =>
    rw [List.foldl_cons]
    apply ih (fun i hi => hl i (List.mem_cons_of_mem _ hi))
    exact mul_ne_zero hc (Nat.cast_ne_zero.2 (hl x (List.mem_cons_self _ _)))

/-- C4, counterexample: the constructor `Monomial(term_t, const exp_t[N])` called with
coefficient `0` and exponents `[2]` builds a monomial with a zero coefficient and a
non-zero exponent, and differentiating that monomial gives another one (`0 * x¹`). -/
theorem zeroCanonical_counterexample :
    ¬ (initCoeffExps (⟨7, ![7]⟩ : Monomial 1 Int) 0 ![2]).ZeroCanonical
      ∧ ¬ ((initCoeffExps (⟨7, ![7]⟩ : Monomial 1 Int) 0 ![2]).differentiate
            (init ⟨7, ![7]⟩) ![1]).ZeroCanonical := by
  constructor
  · intro h
    exact absurd (h (by decide) 0) (by decide)
  · intro h
    exact absurd (h (by decide) 0) (by decide)

/-- C4, amended: the default constructor, the coefficient-only constructor and `nullify`
always give a monomial satisfying the zero-canonical invariant; the constructor taking a
coefficient and exponents satisfies it exactly when its coefficient is non-zero or all of
its exponents are zero; and, with exact coefficient arithmetic, the output of
`differentiate` satisfies it whenever the source does. -/
theorem zeroCanonical_public [Semiring term_t] [NoZeroDivisors term_t] [CharZero term_t]
    (raw m source target : Monomial N term_t) (c : term_t) (e mask : Fin N → exp_t)
    (hsource : source.ZeroCanonical) :
    (init raw).ZeroCanonical
      ∧ (initCoeff raw c).ZeroCanonical
      ∧ m.nullify.ZeroCanonical
      ∧ ((initCoeffExps raw c e).ZeroCanonical ↔ (c = 0 → ∀ i, e i = 0))
      ∧ (source.differentiate target mask).ZeroCanonical := by
  refine ⟨?_, ?_, ?_, ?_, ?_⟩
  · rw [init_eq]
    exact zeroCanonical_zero
  · rw [initCoeff_eq]
    exact fun _ _ => rfl
  · rw [nullify_eq]
    exact zeroCanonical_zero
  · rw [initCoeffExps_eq]
    exact Iff.rfl
  · show (mono.differentiate source target mask).ZeroCanonical
    by_cases hsel : ∃ i, mono.selected source mask i
    · rw [mono.differentiate_of_selected _ _ _ hsel]
      obtain ⟨j, hj⟩ := hsel
      have hc : source.coeff ≠ 0 := fun h0 => hj.2 (hsource h0 j)
      intro hzero
      exfalso
      refine foldl_mul_ne_zero source.exps _ ?_ source.coeff hc hzero
      intro i hi
      have := (List.mem_filter.1 hi).2
      exact (of_decide_eq_true this).2
    · rw [mono.differentiate_of_not_selected _ _ _ (not_exists.1 hsel)]
      exact zeroCanonical_zero

/-- Instance of the amended C4 at the source `3 * x²` over the integers. -/
theorem zeroCanonical_public_witness :
    (⟨3, ![2]⟩ : Monomial 1 Int).ZeroCanonical
      ∧ ((init (⟨7, ![7]⟩ : Monomial 1 Int)).ZeroCanonical
        ∧ (initCoeff (⟨7, ![7]⟩ : Monomial 1 Int) 0).ZeroCanonical
        ∧ (nullify (⟨4, ![5]⟩ : Monomial 1 Int)).ZeroCanonical
        ∧ ((initCoeffExps (⟨7, ![7]⟩ : Monomial 1 Int) 0 ![2]).ZeroCanonical
            ↔ ((0 : Int) = 0 → ∀ i, (![2] : Fin 1 → exp_t) i = 0))
        ∧ ((⟨3, ![2]⟩ : Monomial 1 Int).differentiate ⟨1, ![1]⟩ ![1]).ZeroCanonical) :=
  ⟨fun h => absurd h (by decide),
    zeroCanonical_public ⟨7, ![7]⟩ ⟨4, ![5]⟩ ⟨3, ![2]⟩ ⟨1, ![1]⟩ 0 ![2] ![1]
      (fun h => absurd h (by decide))⟩

end Monomial

/-! ## Laws of differentiation -/

namespace mono

variable {N : Nat} {term_t : Type}

/-- C5, mask-emptiness law: for every source monomial and every prior state of the output,
`mono::differentiate` with a mask whose entries are all `0` yields the canonical zero
(coefficient `0`, all exponents `0`). -/
theorem differentiate_mask_empty [Mul term_t] [NatCast term_t] [Zero term_t]
    (source deriv : Monomial N term_t) (mask : Fin N → exp_t) (hmask : ∀ i, mask i = 0) :
    differentiate source deriv mask = Monomial.zero N term_t
      ∧ (differentiate source deriv mask).coeff = 0
      ∧ ∀ i, (differentiate source deriv mask).exps i = 0 := by
  have h : differentiate source deriv mask = Monomial.zero N term_t :=
    differentiate_of_not_selected source deriv mask (fun i hi => hi.1 (hmask i))
  rw [h]
  exact ⟨rfl, rfl, fun _ => rfl⟩

/-- Instance of C5 at the source `5 * x₁² * x₂³` with the mask `{0, 0}`. -/
theorem differentiate_mask_empty_witness :
    (∀ i, (![0, 0] : Fin 2 → exp_t) i = 0)
      ∧ (differentiate (⟨5, ![2, 3]⟩ : Monomial 2 Int) ⟨9, ![7, 7]⟩ ![0, 0]
            = Monomial.zero 2 Int
          ∧ (differentiate (⟨5, ![2, 3]⟩ : Monomial 2 Int) ⟨9, ![7, 7]⟩ ![0, 0]).coeff = 0
          ∧ ∀ i, (differentiate (⟨5, ![2, 3]⟩ : Monomial 2 Int) ⟨9, ![7, 7]⟩
              ![0, 0]).exps i = 0) :=
  ⟨by decide, differentiate_mask_empty ⟨5, ![2, 3]⟩ ⟨9, ![7, 7]⟩ ![0, 0] (by decide)⟩

/-- C6, idempotence of zero: for every mask, differentiating the canonical zero monomial,
as built by the default constructor or by `nullify`, yields the canonical zero monomial
again. -/
theorem differentiate_zero [Mul term_t] [NatCast term_t] [Zero term_t]
    (raw m deriv : Monomial N term_t) (mask : Fin N → exp_t) :
    differentiate (Monomial.init raw) deriv mask = Monomial.zero N term_t
      ∧ differentiate (Monomial.init raw) deriv mask = Monomial.init raw
      ∧ differentiate m.nullify deriv mask = Monomial.zero N term_t
      ∧ differentiate m.nullify deriv mask = m.nullify := by
  have h : differentiate (Monomial.zero N term_t) deriv mask = Monomial.zero N term_t :=
    differentiate_of_not_selected _ deriv mask (fun i hi => hi.2 rfl)
  rw [Monomial.init_eq, Monomial.nullify_eq]
  exact ⟨h, h, h, h⟩

/-- C7: for every coefficient `c` and every mask, differentiating the constant monomial
(coefficient `c`, all exponents `0`, as built by the constructor `Monomial(term_t)`) yields
the canonical zero; in particular for `N = 1`, exponents `[0]` and mask `[true]` the result
has coefficient `0` and exponents `[0]`. -/
theorem differentiate_constant [Mul term_t] [NatCast term_t] [Zero term_t]
    (raw deriv : Monomial N term_t) (raw1 deriv1 : Monomial 1 term_t) (c : term_t)
    (mask : Fin N → exp_t) :
    differentiate (⟨c, fun _ => 0⟩ : Monomial N term_t) deriv mask = Monomial.zero N term_t
      ∧ differentiate (Monomial.initCoeff raw c) deriv mask = Monomial.zero N term_t
      ∧ (differentiate (Monomial.initCoeffExps raw1 c ![0]) deriv1 ![1]).coeff = 0
      ∧ (differentiate (Monomial.initCoeffExps raw1 c ![0]) deriv1 ![1]).exps = ![0] := by
  have h : differentiate (⟨c, fun _ => 0⟩ : Monomial N term_t) deriv mask
      = Monomial.zero N term_t :=
    differentiate_of_not_selected _ deriv mask (fun i hi => hi.2 rfl)
  have h1 : differentiate (⟨c, ![0]⟩ : Monomial 1 term_t) deriv1 ![1]
      = Monomial.zero 1 term_t :=
    differentiate_of_not_selected _ deriv1 _ (fun i hi => hi.2 (by simp))
  rw [Monomial.initCoeff_eq, Monomial.initCoeffExps_eq, h1]
  refine ⟨h, h, rfl, ?_⟩
  funext i
  simp [Monomial.zero]

end mono

/-! ## The documented scenarios -/

namespace mono

variable {term_t : Type}

/-- C8, seed case: differentiating the monomial with `N = 1`, coefficient `3` and exponents
`[2]` with mask `[1]` through the method `Monomial::differentiate`, the target being a
default-constructed `Monomial1D`, leaves the target with coefficient `6` and exponents
`[1]`. -/
theorem differentiate_seed [Semiring term_t] (raw rawTarget : Monomial1D term_t) :
    ((Monomial.initCoeffExps raw 3 ![2]).differentiate (Monomial.init rawTarget) ![1]).coeff = 6
      ∧ ((Monomial.initCoeffExps raw 3 ![2]).differentiate (Monomial.init rawTarget)
          ![1]).exps = ![1] := by
  rw [Monomial.initCoeffExps_eq]
  show (differentiate ⟨3, ![2]⟩ (Monomial.init rawTarget) ![1]).coeff = 6
    ∧ (differentiate ⟨3, ![2]⟩ (Monomial.init rawTarget) ![1]).exps = ![1]
  have hsel : selected (⟨3, ![2]⟩ : Monomial 1 term_t) ![1] 0 :=
    ⟨by decide, show (![2] : Fin 1 → exp_t) 0 ≠ 0 by decide⟩
  have hrange : List.finRange 1 = [0] := by decide
  rw [differentiate_of_selected _ _ _ ⟨0, hsel⟩, hrange]
  constructor
  · simp [hsel]
    norm_num
  · funext i
    have hi : i = 0 := Subsingleton.elim _ _
    subst hi
    simp [hsel]
    decide

/-- C9, multiple simultaneous variables: differentiating the monomial with `N = 2`,
coefficient `5` and exponents `{2, 3}` with mask `{true, true}` yields a monomial with
coefficient `30 = 5 * 2 * 3` and exponents `{1, 2}`. -/
theorem differentiate_two_variables [Semiring term_t] (raw deriv : Monomial 2 term_t) :
    differentiate (Monomial.initCoeffExps raw 5 ![2, 3]) deriv ![1, 1] = ⟨30, ![1, 2]⟩
      ∧ (30 : term_t) = 5 * 2 * 3 := by
  rw [Monomial.initCoeffExps_eq]
  have hsel0 : selected (⟨5, ![2, 3]⟩ : Monomial 2 term_t) ![1, 1] 0 :=
    ⟨by decide, show (![2, 3] : Fin 2 → exp_t) 0 ≠ 0 by decide⟩
  have hsel1 : selected (⟨5, ![2, 3]⟩ : Monomial 2 term_t) ![1, 1] 1 :=
    ⟨by decide, show (![2, 3] : Fin 2 → exp_t) 1 ≠ 0 by decide⟩
  have hrange : List.finRange 2 = [0, 1] := by decide
  rw [differentiate_of_selected _ _ _ ⟨0, hsel0⟩, hrange]
  constructor
  · ext i
    · simp [hsel0, hsel1]
      norm_num
    · fin_cases i
      · simp [hsel0]
        decide
      · simp [hsel1]
        decide
  · norm_num

end mono

/-! ## Evaluation of a constant -/

namespace Monomial

variable {N : Nat} {term_t : Type}

/-- C11: for every coefficient `c` and every input point, entries equal to `0` included,
`solve` on a monomial whose exponents are all `0` (as built by the constructor
`Monomial(term_t)`, for instance) returns exactly `c`: every factor, also the degenerate
`0 ^ 0`, is `1`, and a value is returned at every point. -/
theorem solve_constant [MonoidWithZero term_t] (raw : Monomial N term_t) (c : term_t)
    (vals : Fin N → term_t) :
    solve ⟨c, fun _ => 0⟩ vals = c
      ∧ solve (initCoeff raw c) vals = c
      ∧ solve (⟨c, fun _ => 0⟩ : Monomial N term_t) (fun _ => 0) = c
      ∧ (0 : term_t) ^ (0 : exp_t) = 1 := by
  have key : ∀ v : Fin N → term_t, solve ⟨c, fun _ => 0⟩ v = c := by
    intro v
    exact forLoop_invariant (fun i (result : term_t) => result * v i ^ (0 : exp_t)) c
      (fun _ r => r = c) rfl
      (by
        intro k h s hs
        show s * v ⟨k, h⟩ ^ (0 : exp_t) = c
        rw [hs, pow_zero, mul_one])
  rw [initCoeff_eq]
  exact ⟨key vals, key vals, key _, pow_zero 0⟩

end Monomial

/-! ## Rendering -/

namespace Monomial

variable {N : Nat} {term_t : Type}

/-- Joining a list of texts extended by one more text. -/
theorem join_concat (l : List String) (x : String) :
    String.join (l ++ [x]) = String.join l ++ x := by
  simp [String.join, List.foldl_append]

/-- State of the loop of `toString`: the coefficient text followed by the suffixes of the
indices with a non-zero exponent, in loop order. -/
theorem toString_eq (to_string : term_t → String) (m : Monomial N term_t) :
    m.toString to_string = to_string m.coeff
      ++ String.join (((List.finRange N).filter (fun i => decide (m.exps i ≠ 0))).map
          (fun i => factorText i.val (m.exps i))) := by
  have key := forLoop_invariant
    (fun (i : Fin N) (result : String) =>
      if m.exps i ≠ 0 then result ++ factorText i.val (m.exps i) else result)
    (to_string m.coeff)
    (fun k r => r = to_string m.coeff
      ++ String.join ((((List.finRange N).take k).filter (fun i => decide (m.exps i ≠ 0))).map
          (fun i => factorText i.val (m.exps i))))
    (by simp [String.join])
    (by
      intro k h s hs
      rw [finRange_take_succ k h, List.filter_append, List.map_append]
      by_cases hk : m.exps ⟨k, h⟩ ≠ 0
      · simp only [hk, if_true]
        rw [hs, String.append_assoc]
        rw [← join_concat]
        simp [hk]
      · simp only [hk, if_false]
        rw [hs]
        simp [hk])
  show forLoop N _ (to_string m.coeff) = _
  rw [key, List.take_of_length_le (by simp)]

/-- C12: for every monomial `(c, e)`, `toString` returns the text form of `c` followed by
the concatenation, in increasing index order and with no separator, of the suffix
`"x_" ++ decimal (i + 1) ++ "^" ++ decimal (e[i])` for exactly those indices with
`e[i] != 0`; an exponent of `1` is still printed as `"^1"`, and a monomial with all
exponents `0`, in particular the canonical zero, gets no variable suffix at all. -/
theorem toString_spec [Zero term_t] (to_string : term_t → String) (c : term_t)
    (e : Fin N → exp_t) :
    toString to_string ⟨c, e⟩
        = to_string c ++ String.join
            (((Finset.univ.filter (fun i => e i ≠ 0)).sort (· ≤ ·)).map
              (fun i => "x_" ++ Nat.repr (i.val + 1) ++ "^" ++ Nat.repr (e i)))
      ∧ toString to_string (⟨c, ![1, 0, 1]⟩ : Monomial 3 term_t)
        = to_string c ++ "x_1^1x_3^1"
      ∧ toString to_string (⟨c, fun _ => 0⟩ : Monomial N term_t) = to_string c
      ∧ toString to_string (zero N term_t) = to_string 0 := by
  have hconst : ∀ a : term_t,
      toString to_string (⟨a, fun _ => 0⟩ : Monomial N term_t) = to_string a := by
    intro a
    rw [toString_eq]
    simp [String.join]
  refine ⟨?_, ?_, hconst c, hconst 0⟩
  · rw [toString_eq, mono.sort_filter_univ]
    rfl
  · rw [toString_eq]
    have hrange : List.finRange 3 = [0, 1, 2] := by decide
    rw [hrange]
    congr 1
    show String.join (List.map (fun i : Fin 3 => factorText i.val ((![1, 0, 1] : Fin 3 → exp_t) i))
      (List.filter (fun i => decide ((![1, 0, 1] : Fin 3 → exp_t) i ≠ 0)) [0, 1, 2]))
        = "x_1^1x_3^1"
    decide

end Monomial

namespace Monomial

/-- C13: in the seed scenario `toString` of the source (coefficient `3`, exponents `[2]`)
is the text of the coefficient followed by `x_1^2`, and `toString` of its derivative with
mask `[1]` is the text of the coefficient `6` followed by `x_1^1`, whatever the conversion
of the coefficient is.  With the conversion `std::to_string(float)` the coefficient is
rendered with six decimals, so the two texts are `3.000000x_1^2` and `6.000000x_1^1`, not
the texts `3x_1^2` and `6x_1^1` announced by the comments of `main`. -/
theorem toString_seed (raw rawTarget : Monomial1D Int) :
    (∀ to_string : Int → String,
        toString to_string (initCoeffExps raw 3 ![2]) = to_string 3 ++ "x_1^2"
          ∧ toString to_string
              ((initCoeffExps raw 3 ![2]).differentiate (init rawTarget) ![1])
            = to_string 6 ++ "x_1^1")
      ∧ toString to_string_float (initCoeffExps raw 3 ![2]) = "3.000000x_1^2"
      ∧ toString to_string_float
            ((initCoeffExps raw 3 ![2]).differentiate (init rawTarget) ![1])
          = "6.000000x_1^1"
      ∧ toString to_string_float (initCoeffExps raw 3 ![2]) ≠ "3x_1^2"
      ∧ toString to_string_float
            ((initCoeffExps raw 3 ![2]).differentiate (init rawTarget) ![1])
          ≠ "6x_1^1" := by
  have hderiv : (initCoeffExps raw 3 ![2]).differentiate (init rawTarget) ![1]
      = (⟨6, ![1]⟩ : Monomial1D Int) := by
    rw [initCoeffExps_eq, init_eq]
    ext i
    · decide
    · have hi : i = 0 := Subsingleton.elim _ _
      subst hi
      decide
  have hgen : ∀ to_string : Int → String,
      toString to_string (initCoeffExps raw 3 ![2]) = to_string 3 ++ "x_1^2"
        ∧ toString to_string
            ((initCoeffExps raw 3 ![2]).differentiate (init rawTarget) ![1])
          = to_string 6 ++ "x_1^1" := by
    intro to_string
    have hrange : List.finRange 1 = [0] := by decide
    rw [hderiv, initCoeffExps_eq, toString_eq, toString_eq, hrange]
    constructor
    · congr 1
    · congr 1
  refine ⟨hgen, ?_, ?_, ?_, ?_⟩
  · rw [(hgen to_string_float).1]
    decide
  · rw [(hgen to_string_float).2]
    decide
  · rw [(hgen to_string_float).1]
    decide
  · rw [(hgen to_string_float).2]
    decide

end Monomial

/-! ## Differentiation through references: full overwrite and frame -/

section Simulation

variable {σ τ : Type} {N : Nat}

/-- Two counted loops whose bodies preserve a relation between their states, indexed by the
number of iterations done, end in related states. -/
theorem forLoop_rel (body₁ : Fin N → σ → σ) (body₂ : Fin N → τ → τ) (a : σ) (b : τ)
    (R : Nat → σ → τ → Prop) (h0 : R 0 a b)
    (hstep : ∀ (k : Nat) (h : k < N) (s : σ) (t : τ),
      R k s t → R (k + 1) (body₁ ⟨k, h⟩ s) (body₂ ⟨k, h⟩ t)) :
    R N (forLoop N body₁ a) (forLoop N body₂ b) := by
  have key : ∀ (k : Nat) (h : k ≤ N),
      R k (forLoop.go N body₁ k h a) (forLoop.go N body₂ k h b) := by
    intro k
    induction k with
    | zero => intro _; exact h0
    | succ k ih => intro h; exact hstep k h _ _ (ih (Nat.le_of_succ_le h))
  exact key N (Nat.le_refl N)

end Simulation

namespace mono

variable {N : Nat} {term_t : Type}

/-- On a store, `mono::differentiate` changes the object named by `deriv` only, and leaves
in it the monomial computed by `differentiate` from the value of the source before the
call; this also holds when both references name the same object. -/
theorem differentiateRef_eq {ι : Type} [DecidableEq ι] [Mul term_t] [NatCast term_t]
    [Zero term_t] (store : ι → Monomial N term_t) (source deriv : ι) (mask : Fin N → exp_t) :
    differentiateRef store source deriv mask
      = Function.update store deriv (differentiate (store source) (store deriv) mask) := by
  have key := forLoop_rel (differentiateStep (store source) mask)
    (differentiateRefStep source deriv mask)
    (({ store deriv with coeff := (store source).coeff, exps := (store source).exps } :
      Monomial N term_t), true)
    (Function.update store deriv
      { store deriv with coeff := (store source).coeff, exps := (store source).exps }, true)
    (fun k st rst => rst.1 = Function.update store deriv st.1 ∧ rst.2 = st.2
      ∧ ∀ i : Fin N, k ≤ i.val → st.1.exps i = (store source).exps i)
    ⟨rfl, rfl, fun _ _ => rfl⟩
    (by
      intro k h st rst hR
      obtain ⟨hstore, hflag, hexps⟩ := hR
      have hread : (rst.1 source).exps ⟨k, h⟩ = (store source).exps ⟨k, h⟩ := by
        rw [hstore]
        by_cases hsd : source = deriv
        · subst hsd
          rw [Function.update_same]
          exact hexps ⟨k, h⟩ (Nat.le_refl k)
        · rw [Function.update_noteq hsd]
      by_cases hsel : selected (store source) mask ⟨k, h⟩
      · have hsel2 : mask ⟨k, h⟩ ≠ 0 ∧ (rst.1 source).exps ⟨k, h⟩ ≠ 0 := by
          rw [hread]
          exact hsel
        unfold differentiateStep differentiateRefStep
        rw [if_pos hsel, if_pos hsel2]
        refine ⟨?_, rfl, ?_⟩
        · dsimp only
          rw [hread, hstore]
          simp
        · intro i hi
          have hne : i ≠ ⟨k, h⟩ := by
            intro hik
            rw [hik] at hi
            exact absurd hi (Nat.not_succ_le_self k)
          dsimp only
          rw [Function.update_noteq hne]
          exact hexps i (Nat.le_of_succ_le hi)
      · have hsel2 : ¬ (mask ⟨k, h⟩ ≠ 0 ∧ (rst.1 source).exps ⟨k, h⟩ ≠ 0) := by
          rw [hread]
          exact hsel
        unfold differentiateStep differentiateRefStep
        rw [if_neg hsel, if_neg hsel2]
        exact ⟨hstore, hflag, fun i hi => hexps i (Nat.le_of_succ_le hi)⟩)
  obtain ⟨hstore, hflag, -⟩ := key
  unfold differentiateRef differentiate
  simp only [hstore, hflag]
  by_cases hf : (forLoop N (differentiateStep (store source) mask)
      (({ store deriv with coeff := (store source).coeff, exps := (store source).exps } :
        Monomial N term_t), true)).2 = true
  · simp [hf]
  · simp [hf]

end mono

namespace mono

variable {N : Nat} {term_t : Type}

/-- C14, counterexample: in the call `a.differentiate(a, mask)` with `a = 5 * x₁² * x₂³`
and mask `{1, 1}` the output is the source object, and the source is overwritten with
`30 * x₁ * x₂²`. -/
theorem overwrite_counterexample :
    (differentiateRef (fun _ : Unit => (⟨5, ![2, 3]⟩ : Monomial 2 Int)) () () ![1, 1] ()).coeff
        = 30
      ∧ (∀ i, (differentiateRef (fun _ : Unit => (⟨5, ![2, 3]⟩ : Monomial 2 Int)) () ()
            ![1, 1] ()).exps i = (![1, 2] : Fin 2 → exp_t) i)
      ∧ differentiateRef (fun _ : Unit => (⟨5, ![2, 3]⟩ : Monomial 2 Int)) () () ![1, 1] ()
          ≠ (fun _ : Unit => (⟨5, ![2, 3]⟩ : Monomial 2 Int)) () := by
  refine ⟨by decide, by decide, ?_⟩
  intro h
  have hc := congrArg Monomial.coeff h
  revert hc
  decide

/-- C14, amended: for every source and mask and any two prior states of the output
monomial, `differentiate` (the function of `mono` and the method of `Monomial`) leaves the
output in the same final state, coefficient and every exponent: the result is a function of
the source and the mask only.  On a store of objects, every object other than the output
is unchanged, so the source monomial is left unchanged when the output is an object other
than the source; when the output is the source object itself, that object is overwritten
with the derivative of its prior value. -/
theorem differentiate_overwrite {ι : Type} [DecidableEq ι] [Mul term_t] [NatCast term_t]
    [Zero term_t] (source d₁ d₂ : Monomial N term_t) (mask : Fin N → exp_t)
    (store₁ store₂ : ι → Monomial N term_t) (s d : ι) :
    differentiate source d₁ mask = differentiate source d₂ mask
      ∧ Monomial.differentiate source d₁ mask = Monomial.differentiate source d₂ mask
      ∧ differentiateRef store₁ s d mask d = differentiate (store₁ s) (store₁ d) mask
      ∧ (∀ x, x ≠ d → differentiateRef store₁ s d mask x = store₁ x)
      ∧ (s ≠ d → differentiateRef store₁ s d mask s = store₁ s)
      ∧ (s ≠ d → store₁ s = store₂ s →
          differentiateRef store₁ s d mask d = differentiateRef store₂ s d mask d)
      ∧ differentiateRef store₁ s s mask s = differentiate (store₁ s) (store₁ s) mask := by
  have hpure : ∀ (a b₁ b₂ : Monomial N term_t),
      differentiate a b₁ mask = differentiate a b₂ mask := by
    intro a b₁ b₂
    rfl
  refine ⟨hpure source d₁ d₂, hpure source d₁ d₂, ?_, ?_, ?_, ?_, ?_⟩
  · rw [differentiateRef_eq, Function.update_same]
  · intro x hx
    rw [differentiateRef_eq, Function.update_noteq hx]
  · intro hsd
    rw [differentiateRef_eq, Function.update_noteq hsd]
  · intro _ hsource
    rw [differentiateRef_eq, differentiateRef_eq, Function.update_same, Function.update_same,
      hsource]
    exact hpure _ _ _
  · rw [differentiateRef_eq, Function.update_same]

/-- Instance of the amended C14: the source `3 * x²` and two different prior outputs. -/
theorem differentiate_overwrite_witness :
    (true ≠ false)
      ∧ ((fun b : Bool => if b then (⟨3, ![2]⟩ : Monomial 1 Int) else ⟨0, ![0]⟩) true
          = (fun b : Bool => if b then (⟨3, ![2]⟩ : Monomial 1 Int) else ⟨8, ![9]⟩) true)
      ∧ differentiateRef
          (fun b : Bool => if b then (⟨3, ![2]⟩ : Monomial 1 Int) else ⟨0, ![0]⟩)
          true false ![1] true
        = (fun b : Bool => if b then (⟨3, ![2]⟩ : Monomial 1 Int) else ⟨0, ![0]⟩) true
      ∧ differentiateRef
          (fun b : Bool => if b then (⟨3, ![2]⟩ : Monomial 1 Int) else ⟨0, ![0]⟩)
          true false ![1] false
        = differentiateRef
          (fun b : Bool => if b then (⟨3, ![2]⟩ : Monomial 1 Int) else ⟨8, ![9]⟩)
          true false ![1] false :=
  ⟨by decide, rfl,
    (differentiate_overwrite (⟨3, ![2]⟩ : Monomial 1 Int) ⟨0, ![0]⟩ ⟨8, ![9]⟩ ![1]
      (fun b : Bool => if b then (⟨3, ![2]⟩ : Monomial 1 Int) else ⟨0, ![0]⟩)
      (fun b : Bool => if b then (⟨3, ![2]⟩ : Monomial 1 Int) else ⟨8, ![9]⟩)
      true false).2.2.2.2.1 (by decide),
    (differentiate_overwrite (⟨3, ![2]⟩ : Monomial 1 Int) ⟨0, ![0]⟩ ⟨8, ![9]⟩ ![1]
      (fun b : Bool => if b then (⟨3, ![2]⟩ : Monomial 1 Int) else ⟨0, ![0]⟩)
      (fun b : Bool => if b then (⟨3, ![2]⟩ : Monomial 1 Int) else ⟨8, ![9]⟩)
      true false).2.2.2.2.2.1 (by decide) rfl⟩

/-- C20: the mask is read only through which entries are non-zero: for two masks `m₁`, `m₂`
with `m₁[i] = 0` iff `m₂[i] = 0` for every `i`, `differentiate` produces identical outputs;
an entry `2`, or any other non-zero value, behaves exactly like `1`. -/
theorem differentiate_mask_nonzero [Mul term_t] [NatCast term_t] [Zero term_t]
    (source deriv : Monomial N term_t) (m₁ m₂ : Fin N → exp_t)
    (hmask : ∀ i, m₁ i = 0 ↔ m₂ i = 0) :
    differentiate source deriv m₁ = differentiate source deriv m₂
      ∧ differentiate source deriv m₁
        = differentiate source deriv (fun i => if m₁ i ≠ 0 then 1 else 0) := by
  have key : ∀ a b : Fin N → exp_t, (∀ i, a i = 0 ↔ b i = 0) →
      differentiate source deriv a = differentiate source deriv b := by
    intro a b hab
    have hstep : differentiateStep source a = differentiateStep source b := by
      funext i st
      unfold differentiateStep selected
      have hi : (a i ≠ 0 ∧ source.exps i ≠ 0) ↔ (b i ≠ 0 ∧ source.exps i ≠ 0) := by
        rw [Ne, Ne, hab i]
      by_cases hb : b i ≠ 0 ∧ source.exps i ≠ 0
      · rw [if_pos hb, if_pos (hi.2 hb)]
      · rw [if_neg hb, if_neg (fun h => hb (hi.1 h))]
    unfold differentiate
    rw [hstep]
  refine ⟨key _ _ hmask, key _ _ ?_⟩
  intro i
  by_cases h : m₁ i = 0
  · simp [h]
  · simp [h]

/-- Instance of C20: the masks `{2, 0}` and `{1, 0}` on `5 * x₁² * x₂³`. -/
theorem differentiate_mask_nonzero_witness :
    (∀ i, (![2, 0] : Fin 2 → exp_t) i = 0 ↔ (![1, 0] : Fin 2 → exp_t) i = 0)
      ∧ (differentiate (⟨5, ![2, 3]⟩ : Monomial 2 Int) ⟨0, ![0, 0]⟩ ![2, 0]
            = differentiate (⟨5, ![2, 3]⟩ : Monomial 2 Int) ⟨0, ![0, 0]⟩ ![1, 0]
          ∧ differentiate (⟨5, ![2, 3]⟩ : Monomial 2 Int) ⟨0, ![0, 0]⟩ ![2, 0]
            = differentiate (⟨5, ![2, 3]⟩ : Monomial 2 Int) ⟨0, ![0, 0]⟩
                (fun i => if (![2, 0] : Fin 2 → exp_t) i ≠ 0 then 1 else 0)) :=
  ⟨by decide,
    differentiate_mask_nonzero (⟨5, ![2, 3]⟩ : Monomial 2 Int) ⟨0, ![0, 0]⟩ ![2, 0] ![1, 0]
      (by decide)⟩

end mono

/-! ## The skip policy and the unsigned decrement -/

namespace mono

variable {N : Nat} {term_t : Type}

/-- An iteration at an index whose source exponent is zero changes nothing: neither the
multiplication nor the decrement is executed there. -/
theorem differentiateStep_of_zero [Mul term_t] [NatCast term_t] (source : Monomial N term_t)
    (mask : Fin N → exp_t) (i : Fin N) (st : Monomial N term_t × Bool)
    (hzero : source.exps i = 0) : differentiateStep source mask i st = st := by
  unfold differentiateStep
  rw [if_neg (fun h => h.2 hzero)]

/-- C15, skip policy: an index `i` with `mask[i]` set and source exponent `0` contributes
nothing: the output exponent at `i` stays `0`, the coefficient is not multiplied for `i`
(the index is not among those whose exponents multiply the coefficient, and clearing
`mask[i]` gives the same output); so when some other masked index `j` has a non-zero
exponent the result is not zeroed, its exponent at `j` being `e[j] - 1`.  Instance: `N = 2`,
coefficient `5`, exponents `{2, 0}`, mask `{1, 1}` yields coefficient `10` and exponents
`{1, 0}`. -/
theorem differentiate_skip [Semiring term_t] (c : term_t) (e : Fin N → exp_t)
    (deriv : Monomial N term_t) (deriv₂ : Monomial 2 term_t) (mask : Fin N → exp_t)
    (i : Fin N) (he : ∀ k, e k < EXP_MOD) (hmask : mask i ≠ 0) (hzero : e i = 0) :
    (differentiate ⟨c, e⟩ deriv mask).exps i = 0
      ∧ differentiate ⟨c, e⟩ deriv mask = differentiate ⟨c, e⟩ deriv (Function.update mask i 0)
      ∧ (∀ j, mask j ≠ 0 → e j ≠ 0 →
          i ∉ Finset.univ.filter (fun k => mask k ≠ 0 ∧ e k ≠ 0)
            ∧ (differentiate ⟨c, e⟩ deriv mask).coeff
              = ((Finset.univ.filter (fun k => mask k ≠ 0 ∧ e k ≠ 0)).sort (· ≤ ·)).foldl
                  (fun a k => a * (e k : term_t)) c
            ∧ (differentiate ⟨c, e⟩ deriv mask).exps j = e j - 1)
      ∧ differentiate (⟨5, ![2, 0]⟩ : Monomial 2 term_t) deriv₂ ![1, 1] = ⟨10, ![1, 0]⟩ := by
  have hnot : ¬ selected (⟨c, e⟩ : Monomial N term_t) mask i := fun h => h.2 hzero
  refine ⟨?_, ?_, ?_, ?_⟩
  · by_cases hsel : ∃ k, selected (⟨c, e⟩ : Monomial N term_t) mask k
    · rw [differentiate_of_selected _ _ _ hsel]
      show (if selected (⟨c, e⟩ : Monomial N term_t) mask i then exp_dec (e i) else e i) = 0
      rw [if_neg hnot, hzero]
    · rw [differentiate_of_not_selected _ _ _ (not_exists.1 hsel)]
      rfl
  · have hstep : differentiateStep (⟨c, e⟩ : Monomial N term_t) mask
        = differentiateStep (⟨c, e⟩ : Monomial N term_t) (Function.update mask i 0) := by
      funext k st
      by_cases hk : k = i
      · subst hk
        rw [differentiateStep_of_zero _ _ _ _ hzero, differentiateStep_of_zero _ _ _ _ hzero]
      · unfold differentiateStep selected
        simp only [Function.update_noteq hk]
    unfold differentiate
    rw [hstep]
  · intro j hj hej
    have hsel : selected (⟨c, e⟩ : Monomial N term_t) mask j := ⟨hj, hej⟩
    refine ⟨?_, ?_, ?_⟩
    · simp [hzero]
    · rw [differentiate_of_selected _ _ _ ⟨j, hsel⟩, sort_filter_univ]
      rfl
    · rw [differentiate_of_selected _ _ _ ⟨j, hsel⟩]
      show (if selected (⟨c, e⟩ : Monomial N term_t) mask j then exp_dec (e j) else e j) = _
      rw [if_pos hsel, exp_dec_eq (e j) hej (he j)]
  · have hsel0 : selected (⟨5, ![2, 0]⟩ : Monomial 2 term_t) ![1, 1] 0 :=
      ⟨by decide, show (![2, 0] : Fin 2 → exp_t) 0 ≠ 0 by decide⟩
    have hsel1 : ¬ selected (⟨5, ![2, 0]⟩ : Monomial 2 term_t) ![1, 1] 1 :=
      fun h => h.2 (show (![2, 0] : Fin 2 → exp_t) 1 = 0 by decide)
    have hrange : List.finRange 2 = [0, 1] := by decide
    rw [differentiate_of_selected _ _ _ ⟨0, hsel0⟩, hrange]
    ext k
    · simp [hsel0, hsel1]
      norm_num
    · fin_cases k
      · simp [hsel0]
        decide
      · simp [hsel1]

/-- Instance of C15 at `5 * x₁²` in two variables with the mask `{1, 1}`, index `1`. -/
theorem differentiate_skip_witness :
    (∀ k, (![2, 0] : Fin 2 → exp_t) k < EXP_MOD)
      ∧ (![1, 1] : Fin 2 → exp_t) 1 ≠ 0
      ∧ (![2, 0] : Fin 2 → exp_t) 1 = 0
      ∧ ((differentiate (⟨5, ![2, 0]⟩ : Monomial 2 Int) ⟨0, ![7, 7]⟩ ![1, 1]).exps 1 = 0
        ∧ differentiate (⟨5, ![2, 0]⟩ : Monomial 2 Int) ⟨0, ![7, 7]⟩ ![1, 1]
          = differentiate (⟨5, ![2, 0]⟩ : Monomial 2 Int) ⟨0, ![7, 7]⟩
              (Function.update ![1, 1] 1 0)
        ∧ (∀ j, (![1, 1] : Fin 2 → exp_t) j ≠ 0 → (![2, 0] : Fin 2 → exp_t) j ≠ 0 →
            (1 : Fin 2) ∉ Finset.univ.filter
                (fun k => (![1, 1] : Fin 2 → exp_t) k ≠ 0 ∧ (![2, 0] : Fin 2 → exp_t) k ≠ 0)
              ∧ (differentiate (⟨5, ![2, 0]⟩ : Monomial 2 Int) ⟨0, ![7, 7]⟩ ![1, 1]).coeff
                = ((Finset.univ.filter
                    (fun k => (![1, 1] : Fin 2 → exp_t) k ≠ 0
                      ∧ (![2, 0] : Fin 2 → exp_t) k ≠ 0)).sort (· ≤ ·)).foldl
                    (fun a k => a * (((![2, 0] : Fin 2 → exp_t) k : Nat) : Int)) 5
              ∧ (differentiate (⟨5, ![2, 0]⟩ : Monomial 2 Int) ⟨0, ![7, 7]⟩ ![1, 1]).exps j
                = (![2, 0] : Fin 2 → exp_t) j - 1)
        ∧ differentiate (⟨5, ![2, 0]⟩ : Monomial 2 Int) ⟨3, ![4, 4]⟩ ![1, 1]
          = ⟨10, ![1, 0]⟩) :=
  ⟨by decide, by decide, by decide,
    differentiate_skip (5 : Int) ![2, 0] ⟨0, ![7, 7]⟩ ⟨3, ![4, 4]⟩ ![1, 1] 1 (by decide)
      (by decide) (by decide)⟩

end mono

namespace mono

variable {N : Nat} {term_t : Type}

/-- C17, counterexample: for the source `3 * x⁵` and the mask `[0]` no index is
differentiated and the output is reset, so its exponent is `0`, below `5 - 1`. -/
theorem exps_bound_counterexample :
    (∀ i, (![5] : Fin 1 → exp_t) i < EXP_MOD)
      ∧ ¬ (∀ i : Fin 1,
            (![5] : Fin 1 → exp_t) i - 1
                ≤ (differentiate (⟨3, ![5]⟩ : Monomial 1 Int) ⟨0, ![0]⟩ ![0]).exps i
              ∧ (differentiate (⟨3, ![5]⟩ : Monomial 1 Int) ⟨0, ![0]⟩ ![0]).exps i
                ≤ (![5] : Fin 1 → exp_t) i) := by
  decide

/-- C17, amended: the unsigned decrement in `differentiate` never wraps around: an
iteration at an index whose source exponent is zero changes nothing, so every output
exponent `e'[i]` satisfies `e'[i] <= e[i]`; and `e[i] - 1 <= e'[i]` holds whenever some
masked index has a non-zero exponent, while otherwise the output is reset and every
output exponent is `0`. -/
theorem exps_no_wrap [Mul term_t] [NatCast term_t] [Zero term_t] (c : term_t)
    (e : Fin N → exp_t) (deriv : Monomial N term_t) (mask : Fin N → exp_t)
    (he : ∀ i, e i < EXP_MOD) :
    (∀ i st, e i = 0 → differentiateStep (⟨c, e⟩ : Monomial N term_t) mask i st = st)
      ∧ (∀ i, (differentiate ⟨c, e⟩ deriv mask).exps i ≤ e i)
      ∧ ((∃ j, mask j ≠ 0 ∧ e j ≠ 0) →
          ∀ i, e i - 1 ≤ (differentiate ⟨c, e⟩ deriv mask).exps i)
      ∧ ((¬ ∃ j, mask j ≠ 0 ∧ e j ≠ 0) →
          ∀ i, (differentiate ⟨c, e⟩ deriv mask).exps i = 0) := by
  have hform : (∃ j, mask j ≠ 0 ∧ e j ≠ 0) → ∀ i,
      (differentiate ⟨c, e⟩ deriv mask).exps i = if mask i ≠ 0 ∧ e i ≠ 0 then e i - 1 else e i := by
    intro hsel i
    rw [differentiate_of_selected (⟨c, e⟩ : Monomial N term_t) deriv mask hsel]
    show (if mask i ≠ 0 ∧ e i ≠ 0 then exp_dec (e i) else e i) = _
    by_cases hi : mask i ≠ 0 ∧ e i ≠ 0
    · rw [if_pos hi, if_pos hi, exp_dec_eq (e i) hi.2 (he i)]
    · rw [if_neg hi, if_neg hi]
  have hzero : (¬ ∃ j, mask j ≠ 0 ∧ e j ≠ 0) → ∀ i,
      (differentiate ⟨c, e⟩ deriv mask).exps i = 0 := by
    intro hsel i
    rw [differentiate_of_not_selected (⟨c, e⟩ : Monomial N term_t) deriv mask
      (not_exists.1 hsel)]
    rfl
  refine ⟨fun i st h0 => differentiateStep_of_zero _ mask i st h0, ?_, ?_, hzero⟩
  · intro i
    by_cases hsel : ∃ j, mask j ≠ 0 ∧ e j ≠ 0
    · rw [hform hsel i]
      split
      · exact Nat.sub_le _ _
      · exact Nat.le_refl _
    · rw [hzero hsel i]
      exact Nat.zero_le _
  · intro hsel i
    rw [hform hsel i]
    split
    · exact Nat.le_refl _
    · exact Nat.sub_le _ _

/-- Instance of the amended C17 at `5 * x₁² * x₂³` with the mask `{1, 0}`. -/
theorem exps_no_wrap_witness :
    (∀ i, (![2, 3] : Fin 2 → exp_t) i < EXP_MOD)
      ∧ ((∀ i st, (![2, 3] : Fin 2 → exp_t) i = 0 →
            differentiateStep (⟨5, ![2, 3]⟩ : Monomial 2 Int) ![1, 0] i st = st)
        ∧ (∀ i, (differentiate (⟨5, ![2, 3]⟩ : Monomial 2 Int) ⟨0, ![7, 7]⟩ ![1, 0]).exps i
              ≤ (![2, 3] : Fin 2 → exp_t) i)
        ∧ ((∃ j, (![1, 0] : Fin 2 → exp_t) j ≠ 0 ∧ (![2, 3] : Fin 2 → exp_t) j ≠ 0) →
            ∀ i, (![2, 3] : Fin 2 → exp_t) i - 1
              ≤ (differentiate (⟨5, ![2, 3]⟩ : Monomial 2 Int) ⟨0, ![7, 7]⟩ ![1, 0]).exps i)
        ∧ ((¬ ∃ j, (![1, 0] : Fin 2 → exp_t) j ≠ 0 ∧ (![2, 3] : Fin 2 → exp_t) j ≠ 0) →
            ∀ i, (differentiate (⟨5, ![2, 3]⟩ : Monomial 2 Int) ⟨0, ![7, 7]⟩
                ![1, 0]).exps i = 0)) :=
  ⟨by decide, exps_no_wrap (5 : Int) ![2, 3] ⟨0, ![7, 7]⟩ ![1, 0] (by decide)⟩

end mono

/-! ## Order of iteration -/

namespace mono

variable {N : Nat} {term_t : Type}

/-- With commutative coefficient arithmetic two iterations of the loop of
`mono::differentiate` can be exchanged. -/
theorem differentiateStep_comm [CommSemiring term_t] (source : Monomial N term_t)
    (mask : Fin N → exp_t) (x y : Fin N) (st : Monomial N term_t × Bool) :
    differentiateStep source mask y (differentiateStep source mask x st)
      = differentiateStep source mask x (differentiateStep source mask y st) := by
  by_cases hxy : x = y
  · subst hxy
    rfl
  · have hyx : y ≠ x := fun h => hxy h.symm
    unfold differentiateStep
    by_cases hx : selected source mask x
    · by_cases hy : selected source mask y
      · simp only [if_pos hx, if_pos hy]
        refine Prod.ext ?_ rfl
        ext i
        · exact mul_right_comm _ _ _
        · dsimp only
          rw [Function.update_noteq hyx, Function.update_noteq hxy,
            Function.update_comm hxy]
      · simp only [if_pos hx, if_neg hy]
    · by_cases hy : selected source mask y
      · simp only [if_neg hx, if_pos hy]
      · simp only [if_neg hx, if_neg hy]

/-- With exact coefficient arithmetic, permuting exponents and mask permutes the result,
and the iterations of the loop can be run in any order. -/
theorem perm_exact [CommSemiring term_t] (c : term_t) (e : Fin N → exp_t)
    (deriv : Monomial N term_t) (mask : Fin N → exp_t) (p : Equiv.Perm (Fin N)) :
    (differentiate ⟨c, e ∘ p⟩ deriv (mask ∘ p)).coeff = (differentiate ⟨c, e⟩ deriv mask).coeff
      ∧ (differentiate ⟨c, e ∘ p⟩ deriv (mask ∘ p)).exps
        = (differentiate ⟨c, e⟩ deriv mask).exps ∘ p
      ∧ (if (((List.finRange N).map p).foldl
              (fun st i => differentiateStep ⟨c, e⟩ mask i st)
              ((⟨c, e⟩ : Monomial N term_t), true)).2
          then (((List.finRange N).map p).foldl
              (fun st i => differentiateStep ⟨c, e⟩ mask i st)
              ((⟨c, e⟩ : Monomial N term_t), true)).1.nullify
          else (((List.finRange N).map p).foldl
              (fun st i => differentiateStep ⟨c, e⟩ mask i st)
              ((⟨c, e⟩ : Monomial N term_t), true)).1)
        = differentiate ⟨c, e⟩ deriv mask := by
  have hiff : ∀ i, selected (⟨c, e ∘ p⟩ : Monomial N term_t) (mask ∘ p) i
      ↔ selected (⟨c, e⟩ : Monomial N term_t) mask (p i) := fun _ => Iff.rfl
  refine ⟨?_, ?_, ?_⟩
  · by_cases hsel : ∃ i, selected (⟨c, e⟩ : Monomial N term_t) mask i
    · have hsel2 : ∃ i, selected (⟨c, e ∘ p⟩ : Monomial N term_t) (mask ∘ p) i := by
        obtain ⟨i, hi⟩ := hsel
        refine ⟨p.symm i, ?_⟩
        rw [hiff, Equiv.apply_symm_apply]
        exact hi
      rw [differentiate_coeff_prod _ _ _ hsel, differentiate_coeff_prod _ _ _ hsel2,
        Finset.prod_filter, Finset.prod_filter]
      congr 1
      exact Equiv.prod_comp p
        (fun j => if selected (⟨c, e⟩ : Monomial N term_t) mask j then (e j : term_t) else 1)
    · have hsel2 : ∀ i, ¬ selected (⟨c, e ∘ p⟩ : Monomial N term_t) (mask ∘ p) i :=
        fun i hi => hsel ⟨p i, (hiff i).1 hi⟩
      rw [differentiate_of_not_selected _ _ _ (not_exists.1 hsel),
        differentiate_of_not_selected _ _ _ hsel2]
  · by_cases hsel : ∃ i, selected (⟨c, e⟩ : Monomial N term_t) mask i
    · have hsel2 : ∃ i, selected (⟨c, e ∘ p⟩ : Monomial N term_t) (mask ∘ p) i := by
        obtain ⟨i, hi⟩ := hsel
        refine ⟨p.symm i, ?_⟩
        rw [hiff, Equiv.apply_symm_apply]
        exact hi
      rw [differentiate_of_selected _ _ _ hsel, differentiate_of_selected _ _ _ hsel2]
      rfl
    · have hsel2 : ∀ i, ¬ selected (⟨c, e ∘ p⟩ : Monomial N term_t) (mask ∘ p) i :=
        fun i hi => hsel ⟨p i, (hiff i).1 hi⟩
      rw [differentiate_of_not_selected _ _ _ (not_exists.1 hsel),
        differentiate_of_not_selected _ _ _ hsel2]
      rfl
  · have hfold : ((List.finRange N).map p).foldl
          (fun st i => differentiateStep ⟨c, e⟩ mask i st)
          ((⟨c, e⟩ : Monomial N term_t), true)
        = forLoop N (differentiateStep ⟨c, e⟩ mask) ((⟨c, e⟩ : Monomial N term_t), true) := by
      rw [forLoop_eq_foldl]
      exact List.Perm.foldl_eq' p.map_finRange_perm
        (fun x _ y _ z => differentiateStep_comm _ mask x y z) _
    rw [hfold]
    rfl

/-- For any coefficient arithmetic, permuting exponents and mask permutes the exponents of
the result. -/
theorem perm_exps [Mul term_t] [NatCast term_t] [Zero term_t] (c : term_t)
    (e : Fin N → exp_t) (deriv : Monomial N term_t) (mask : Fin N → exp_t)
    (p : Equiv.Perm (Fin N)) :
    (differentiate ⟨c, e ∘ p⟩ deriv (mask ∘ p)).exps
      = (differentiate ⟨c, e⟩ deriv mask).exps ∘ p := by
  have hiff : ∀ i, selected (⟨c, e ∘ p⟩ : Monomial N term_t) (mask ∘ p) i
      ↔ selected (⟨c, e⟩ : Monomial N term_t) mask (p i) := fun _ => Iff.rfl
  by_cases hsel : ∃ i, selected (⟨c, e⟩ : Monomial N term_t) mask i
  · have hsel2 : ∃ i, selected (⟨c, e ∘ p⟩ : Monomial N term_t) (mask ∘ p) i := by
      obtain ⟨i, hi⟩ := hsel
      refine ⟨p.symm i, ?_⟩
      rw [hiff, Equiv.apply_symm_apply]
      exact hi
    rw [differentiate_of_selected _ _ _ hsel, differentiate_of_selected _ _ _ hsel2]
    rfl
  · have hsel2 : ∀ i, ¬ selected (⟨c, e ∘ p⟩ : Monomial N term_t) (mask ∘ p) i :=
      fun i hi => hsel ⟨p i, (hiff i).1 hi⟩
    rw [differentiate_of_not_selected _ _ _ (not_exists.1 hsel),
      differentiate_of_not_selected _ _ _ hsel2]
    rfl

/-- C16, counterexample: with the `float` coefficient `16777215`, exponents `{5, 3}` and
mask `{1, 1}` the coefficient of the derivative is `251658208`; with exponents and mask
swapped it is `251658224`, because each product is rounded. -/
theorem perm_counterexample :
    (differentiate (⟨⟨16777215⟩, ![5, 3]⟩ : Monomial 2 Binary32) ⟨0, ![0, 0]⟩
        ![1, 1]).coeff.val = 251658208
      ∧ (differentiate (⟨⟨16777215⟩, ![5, 3] ∘ Equiv.swap 0 1⟩ : Monomial 2 Binary32)
          ⟨0, ![0, 0]⟩ (![1, 1] ∘ Equiv.swap 0 1)).coeff.val = 251658224
      ∧ (differentiate (⟨⟨16777215⟩, ![5, 3] ∘ Equiv.swap 0 1⟩ : Monomial 2 Binary32)
          ⟨0, ![0, 0]⟩ (![1, 1] ∘ Equiv.swap 0 1)).coeff
        ≠ (differentiate (⟨⟨16777215⟩, ![5, 3]⟩ : Monomial 2 Binary32) ⟨0, ![0, 0]⟩
          ![1, 1]).coeff := by
  refine ⟨by decide, by decide, ?_⟩
  intro h
  have hv := congrArg Binary32.val h
  revert hv
  decide

/-- C16, amended: for every permutation `p` of the variable indices, differentiating the
source with exponents and mask both permuted by `p` yields the exponent vector of the
original result permuted by `p`, whatever the coefficient arithmetic is; with exact
coefficient arithmetic it also yields the same coefficient as differentiating the
original, and running the iterations of the loop in the order `p 0, p 1, …` instead of
`0, 1, …` gives the same output. -/
theorem differentiate_perm {R : Type} [Mul term_t] [NatCast term_t] [Zero term_t]
    [CommSemiring R] (c : term_t) (c₀ : R) (e : Fin N → exp_t) (deriv : Monomial N term_t)
    (deriv₀ : Monomial N R) (mask : Fin N → exp_t) (p : Equiv.Perm (Fin N)) :
    (differentiate ⟨c, e ∘ p⟩ deriv (mask ∘ p)).exps
        = (differentiate ⟨c, e⟩ deriv mask).exps ∘ p
      ∧ (differentiate ⟨c₀, e ∘ p⟩ deriv₀ (mask ∘ p)).coeff
        = (differentiate ⟨c₀, e⟩ deriv₀ mask).coeff
      ∧ (differentiate ⟨c₀, e ∘ p⟩ deriv₀ (mask ∘ p)).exps
        = (differentiate ⟨c₀, e⟩ deriv₀ mask).exps ∘ p
      ∧ (if (((List.finRange N).map p).foldl
              (fun st i => differentiateStep ⟨c₀, e⟩ mask i st)
              ((⟨c₀, e⟩ : Monomial N R), true)).2
          then (((List.finRange N).map p).foldl
              (fun st i => differentiateStep ⟨c₀, e⟩ mask i st)
              ((⟨c₀, e⟩ : Monomial N R), true)).1.nullify
          else (((List.finRange N).map p).foldl
              (fun st i => differentiateStep ⟨c₀, e⟩ mask i st)
              ((⟨c₀, e⟩ : Monomial N R), true)).1)
        = differentiate ⟨c₀, e⟩ deriv₀ mask := by
  have h := perm_exact c₀ e deriv₀ mask p
  exact ⟨perm_exps c e deriv mask p, h.1, h.2.1, h.2.2⟩

end mono

/-! ## Sequential and repeated differentiation -/

namespace mono

variable {N : Nat} {term_t : Type}

/-- Result of `mono::differentiate`, exact arithmetic, when the mask is not empty and every
masked index has a non-zero exponent. -/
theorem differentiate_of_mask [CommSemiring term_t] (source deriv : Monomial N term_t)
    (mask : Fin N → exp_t) (hmask : ∃ i, mask i ≠ 0)
    (hexp : ∀ i, mask i ≠ 0 → source.exps i ≠ 0) :
    differentiate source deriv mask =
      { coeff := source.coeff
          * ∏ i in Finset.univ.filter (fun i => mask i ≠ 0), (source.exps i : term_t)
        exps := fun i => if mask i ≠ 0 then exp_dec (source.exps i) else source.exps i } := by
  have hiff : ∀ i, selected source mask i ↔ mask i ≠ 0 :=
    fun i => ⟨fun h => h.1, fun h => ⟨h, hexp i h⟩⟩
  have hsel : ∃ i, selected source mask i := by
    obtain ⟨i, hi⟩ := hmask
    exact ⟨i, (hiff i).2 hi⟩
  have hfilter : (Finset.univ.filter (fun i => selected source mask i))
      = Finset.univ.filter (fun i => mask i ≠ 0) := by
    ext i
    simp [hiff i]
  ext i
  · rw [differentiate_coeff_prod _ _ _ hsel, hfilter]
  · rw [differentiate_of_selected _ _ _ hsel]
    show (if selected source mask i then exp_dec (source.exps i) else source.exps i)
      = if mask i ≠ 0 then exp_dec (source.exps i) else source.exps i
    by_cases hi : mask i ≠ 0
    · rw [if_pos ((hiff i).2 hi), if_pos hi]
    · rw [if_neg (fun h => hi ((hiff i).1 h)), if_neg hi]

/-- C18: with exact coefficient arithmetic, for two non-empty masks `A` and `B` with
disjoint sets of set indices such that every index set in `A` or `B` has a non-zero source
exponent, differentiating by `A` and then differentiating that result by `B` gives the
same monomial as differentiating once by the union mask `U` (set exactly where `A` or `B`
is set), and hence the same as `B` then `A`. -/
theorem differentiate_sequential [CommSemiring term_t] (source d₁ d₂ d₃ : Monomial N term_t)
    (A B U : Fin N → exp_t) (hA : ∃ i, A i ≠ 0) (hB : ∃ i, B i ≠ 0)
    (hdisj : ∀ i, A i = 0 ∨ B i = 0) (hU : ∀ i, U i ≠ 0 ↔ (A i ≠ 0 ∨ B i ≠ 0))
    (hexp : ∀ i, A i ≠ 0 ∨ B i ≠ 0 → source.exps i ≠ 0) :
    differentiate (differentiate source d₁ A) d₂ B = differentiate source d₃ U
      ∧ differentiate (differentiate source d₁ B) d₂ A = differentiate source d₃ U
      ∧ differentiate (differentiate source d₁ A) d₂ B
        = differentiate (differentiate source d₁ B) d₂ A := by
  have key : ∀ A B : Fin N → exp_t, (∃ i, A i ≠ 0) → (∃ i, B i ≠ 0) →
      (∀ i, A i = 0 ∨ B i = 0) → (∀ i, U i ≠ 0 ↔ (A i ≠ 0 ∨ B i ≠ 0)) →
      (∀ i, A i ≠ 0 ∨ B i ≠ 0 → source.exps i ≠ 0) →
      differentiate (differentiate source d₁ A) d₂ B = differentiate source d₃ U := by
    intro A B hA hB hdisj hU hexp
    have hUne : ∃ i, U i ≠ 0 := by
      obtain ⟨i, hi⟩ := hA
      exact ⟨i, (hU i).2 (Or.inl hi)⟩
    have hfirst := differentiate_of_mask source d₁ A hA (fun i hi => hexp i (Or.inl hi))
    have hBexp : ∀ i, B i ≠ 0 → (differentiate source d₁ A).exps i ≠ 0 := by
      intro i hi
      have hAi : A i = 0 := (hdisj i).resolve_right hi
      rw [hfirst]
      show (if A i ≠ 0 then exp_dec (source.exps i) else source.exps i) ≠ 0
      rw [if_neg (fun h => h hAi)]
      exact hexp i (Or.inr hi)
    rw [differentiate_of_mask _ d₂ B hB hBexp,
      differentiate_of_mask source d₃ U hUne (fun i hi => hexp i ((hU i).1 hi))]
    have hfilter : Finset.univ.filter (fun i => U i ≠ 0)
        = Finset.univ.filter (fun i => A i ≠ 0) ∪ Finset.univ.filter (fun i => B i ≠ 0) := by
      ext i
      simp only [Finset.mem_filter, Finset.mem_univ, true_and, Finset.mem_union]
      exact hU i
    have hdisjoint : Disjoint (Finset.univ.filter (fun i => A i ≠ 0))
        (Finset.univ.filter (fun i => B i ≠ 0)) := by
      rw [Finset.disjoint_left]
      intro i hiA hiB
      simp only [Finset.mem_filter, Finset.mem_univ, true_and] at hiA hiB
      rcases hdisj i with h | h
      · exact hiA h
      · exact hiB h
    ext i
    · show (differentiate source d₁ A).coeff
          * ∏ i in Finset.univ.filter (fun i => B i ≠ 0),
              ((differentiate source d₁ A).exps i : term_t)
        = source.coeff * ∏ i in Finset.univ.filter (fun i => U i ≠ 0), (source.exps i : term_t)
      have hprod : ∏ i in Finset.univ.filter (fun i => B i ≠ 0),
            ((differentiate source d₁ A).exps i : term_t)
          = ∏ i in Finset.univ.filter (fun i => B i ≠ 0), (source.exps i : term_t) := by
        apply Finset.prod_congr rfl
        intro i hi
        simp only [Finset.mem_filter, Finset.mem_univ, true_and] at hi
        have hAi : A i = 0 := (hdisj i).resolve_right hi
        rw [hfirst]
        show (((if A i ≠ 0 then exp_dec (source.exps i) else source.exps i : exp_t) : Nat) :
          term_t) = _
        rw [if_neg (fun h => h hAi)]
      rw [hprod, hfilter, Finset.prod_union hdisjoint, hfirst, mul_assoc]
    · show (if B i ≠ 0 then exp_dec ((differentiate source d₁ A).exps i)
          else (differentiate source d₁ A).exps i)
        = if U i ≠ 0 then exp_dec (source.exps i) else source.exps i
      rw [hfirst]
      show (if B i ≠ 0 then
            exp_dec (if A i ≠ 0 then exp_dec (source.exps i) else source.exps i)
          else (if A i ≠ 0 then exp_dec (source.exps i) else source.exps i)) = _
      by_cases hAi : A i ≠ 0
      · have hBi : ¬ B i ≠ 0 := fun h => h ((hdisj i).resolve_left hAi)
        rw [if_neg hBi, if_pos hAi, if_pos ((hU i).2 (Or.inl hAi))]
      · by_cases hBi : B i ≠ 0
        · rw [if_pos hBi, if_neg hAi, if_pos ((hU i).2 (Or.inr hBi))]
        · rw [if_neg hBi, if_neg hAi,
            if_neg (fun h => ((hU i).1 h).elim hAi hBi)]
  have h₁ := key A B hA hB hdisj hU hexp
  have h₂ := key B A hB hA (fun i => (hdisj i).symm) (fun i => (hU i).trans or_comm)
    (fun i hi => hexp i hi.symm)
  exact ⟨h₁, h₂, h₁.trans h₂.symm⟩

/-- Instance of C18: `5 * x₁² * x₂³` with the masks `{1, 0}`, `{0, 1}` and `{1, 1}`. -/
theorem differentiate_sequential_witness :
    (∃ i, (![1, 0] : Fin 2 → exp_t) i ≠ 0)
      ∧ (∃ i, (![0, 1] : Fin 2 → exp_t) i ≠ 0)
      ∧ (∀ i, (![1, 0] : Fin 2 → exp_t) i = 0 ∨ (![0, 1] : Fin 2 → exp_t) i = 0)
      ∧ (∀ i, (![1, 1] : Fin 2 → exp_t) i ≠ 0
          ↔ ((![1, 0] : Fin 2 → exp_t) i ≠ 0 ∨ (![0, 1] : Fin 2 → exp_t) i ≠ 0))
      ∧ (∀ i, (![1, 0] : Fin 2 → exp_t) i ≠ 0 ∨ (![0, 1] : Fin 2 → exp_t) i ≠ 0 →
          (![2, 3] : Fin 2 → exp_t) i ≠ 0)
      ∧ (differentiate
            (differentiate (⟨5, ![2, 3]⟩ : Monomial 2 Int) ⟨0, ![7, 7]⟩ ![1, 0])
            ⟨1, ![8, 8]⟩ ![0, 1]
          = differentiate (⟨5, ![2, 3]⟩ : Monomial 2 Int) ⟨2, ![9, 9]⟩ ![1, 1]
        ∧ differentiate
            (differentiate (⟨5, ![2, 3]⟩ : Monomial 2 Int) ⟨0, ![7, 7]⟩ ![0, 1])
            ⟨1, ![8, 8]⟩ ![1, 0]
          = differentiate (⟨5, ![2, 3]⟩ : Monomial 2 Int) ⟨2, ![9, 9]⟩ ![1, 1]
        ∧ differentiate
            (differentiate (⟨5, ![2, 3]⟩ : Monomial 2 Int) ⟨0, ![7, 7]⟩ ![1, 0])
            ⟨1, ![8, 8]⟩ ![0, 1]
          = differentiate
            (differentiate (⟨5, ![2, 3]⟩ : Monomial 2 Int) ⟨0, ![7, 7]⟩ ![0, 1])
            ⟨1, ![8, 8]⟩ ![1, 0]) :=
  ⟨⟨0, by decide⟩, ⟨1, by decide⟩, by decide, by decide, by decide,
    differentiate_sequential (⟨5, ![2, 3]⟩ : Monomial 2 Int) ⟨0, ![7, 7]⟩ ⟨1, ![8, 8]⟩
      ⟨2, ![9, 9]⟩ ![1, 0] ![0, 1] ![1, 1] ⟨0, by decide⟩ ⟨1, by decide⟩ (by decide)
      (by decide) (by decide)⟩

end mono

namespace mono

variable {term_t : Type}

/-- Repeated differentiation in one variable, for any coefficient arithmetic: the
coefficient is multiplied in turn by `e`, `e - 1`, …, `e - k + 1`. -/
theorem iterate_fold [Mul term_t] [NatCast term_t] [Zero term_t] (c : term_t) (e k : Nat)
    (deriv : Monomial1D term_t) (he : e < EXP_MOD) :
    (k ≤ e →
        (fun m : Monomial1D term_t => differentiate m deriv ![1])^[k] ⟨c, ![e]⟩
          = ⟨(List.range k).foldl (fun a j => a * ((e - j : Nat) : term_t)) c, ![e - k]⟩)
      ∧ (e < k →
        (fun m : Monomial1D term_t => differentiate m deriv ![1])^[k] ⟨c, ![e]⟩
          = Monomial.zero 1 term_t) := by
  induction k with
  | zero =>
    refine ⟨fun _ => ?_, fun h => absurd h (Nat.not_lt_zero e)⟩
    simp
  | succ k ih =>
    have hzero : differentiate (Monomial.zero 1 term_t) deriv ![1] = Monomial.zero 1 term_t :=
      differentiate_of_not_selected _ _ _ (fun i hi => hi.2 rfl)
    constructor
    · intro hk
      have hk' : k ≤ e := Nat.le_of_succ_le hk
      have hne : e - k ≠ 0 := by omega
      have hlt : e - k < EXP_MOD := lt_of_le_of_lt (Nat.sub_le e k) he
      rw [Function.iterate_succ_apply', ih.1 hk']
      show differentiate (⟨_, ![e - k]⟩ : Monomial1D term_t) deriv ![1] = _
      rw [differentiate_one, if_neg hne, exp_dec_eq (e - k) hne hlt, List.range_succ,
        List.foldl_append, Nat.sub_sub]
      rfl
    · intro hk
      rw [Function.iterate_succ_apply']
      by_cases hek : e = k
      · have h0 : e - k = 0 := by omega
        rw [ih.1 (le_of_eq hek.symm)]
        show differentiate (⟨_, ![e - k]⟩ : Monomial1D term_t) deriv ![1] = _
        rw [differentiate_one, if_pos h0]
      · rw [ih.2 (by omega)]
        exact hzero

/-- With exact arithmetic, multiplying in turn by the factors `f 0, …, f (k - 1)` is
multiplying by their product. -/
theorem foldl_range_mul {R : Type} [CommSemiring R] (f : Nat → R) (c : R) (k : Nat) :
    (List.range k).foldl (fun a j => a * f j) c = c * ∏ j in Finset.range k, f j := by
  induction k with
  | zero => simp
  | succ k ih =>
    rw [List.range_succ, List.foldl_append, ih, Finset.prod_range_succ, ← mul_assoc]
    rfl

/-- C19, higher-order derivatives for `N = 1`: applying `differentiate` with mask `[1]`
`k` times in a row, each result used as the next source, to `c * x ^ e` yields the
coefficient `c * e * (e - 1) * … * (e - k + 1)`, the products taken from left to right in
the coefficient arithmetic, and the exponent `e - k` when `k <= e`, and the canonical zero
when `k > e`; with exact arithmetic the coefficient is `c` times the product of `e - j` for
`j < k`. -/
theorem differentiate_iterate {R : Type} [Mul term_t] [NatCast term_t] [Zero term_t]
    [CommSemiring R] (c : term_t) (c₀ : R) (e k : Nat) (deriv : Monomial1D term_t)
    (deriv₀ : Monomial1D R) (he : e < EXP_MOD) :
    (k ≤ e →
        (fun m : Monomial1D term_t => differentiate m deriv ![1])^[k] ⟨c, ![e]⟩
          = ⟨(List.range k).foldl (fun a j => a * ((e - j : Nat) : term_t)) c, ![e - k]⟩)
      ∧ (e < k →
        (fun m : Monomial1D term_t => differentiate m deriv ![1])^[k] ⟨c, ![e]⟩
          = Monomial.zero 1 term_t)
      ∧ (k ≤ e →
        (fun m : Monomial1D R => differentiate m deriv₀ ![1])^[k] ⟨c₀, ![e]⟩
          = ⟨c₀ * ∏ j in Finset.range k, ((e - j : Nat) : R), ![e - k]⟩)
      ∧ (e < k →
        (fun m : Monomial1D R => differentiate m deriv₀ ![1])^[k] ⟨c₀, ![e]⟩
          = Monomial.zero 1 R) := by
  have h := iterate_fold c e k deriv he
  have h₀ := iterate_fold c₀ e k deriv₀ he
  refine ⟨h.1, h.2, ?_, h₀.2⟩
  intro hk
  rw [h₀.1 hk, foldl_range_mul (fun j => ((e - j : Nat) : R))]

/-- The code's arithmetic at `x³⁰` differentiated six times: the products are rounded to
`float`, and the coefficient is `427518016`, where `30 * 29 * 28 * 27 * 26 * 25` is
`427518000`. -/
theorem iterate_binary32 :
    ((fun m : Monomial1D Binary32 => differentiate m ⟨0, ![7]⟩ ![1])^[6]
        ⟨⟨1⟩, ![30]⟩).coeff.val = 427518016
      ∧ ((List.range 6).foldl (fun a j => a * ((30 - j : Nat) : Binary32)) ⟨1⟩).val
        = 427518016
      ∧ 30 * 29 * 28 * 27 * 26 * 25 = 427518000 := by
  decide

/-- Instance of C19: the sixth derivative of `x³⁰` with `float` coefficients, and the
second derivative of `2 * x³` over the integers. -/
theorem differentiate_iterate_witness :
    (6 : Nat) < EXP_MOD
      ∧ (2 ≤ 6 →
          (fun m : Monomial1D Binary32 => differentiate m ⟨0, ![7]⟩ ![1])^[2] ⟨⟨1⟩, ![6]⟩
            = ⟨(List.range 2).foldl (fun a j => a * ((6 - j : Nat) : Binary32)) ⟨1⟩,
                ![6 - 2]⟩)
      ∧ (6 < 2 →
          (fun m : Monomial1D Binary32 => differentiate m ⟨0, ![7]⟩ ![1])^[2] ⟨⟨1⟩, ![6]⟩
            = Monomial.zero 1 Binary32)
      ∧ (2 ≤ 6 →
          (fun m : Monomial1D Int => differentiate m ⟨0, ![7]⟩ ![1])^[2] ⟨2, ![6]⟩
            = ⟨2 * ∏ j in Finset.range 2, ((6 - j : Nat) : Int), ![6 - 2]⟩)
      ∧ (6 < 2 →
          (fun m : Monomial1D Int => differentiate m ⟨0, ![7]⟩ ![1])^[2] ⟨2, ![6]⟩
            = Monomial.zero 1 Int) :=
  ⟨by decide,
    differentiate_iterate (⟨1⟩ : Binary32) (2 : Int) 6 2 (⟨0, ![7]⟩ : Monomial1D Binary32)
      (⟨0, ![7]⟩ : Monomial1D Int) (by decide)⟩

end mono

